import Mathlib

/-!
Verification development for the CSP core of the MinesweeperSolver repository.

The Python classes `Variable`, `Constraint`, `CSP` and `BT` are shallowly
embedded as Lean structures and executable functions.  Domain values are
modelled as integers (the application uses 0/1 domains; the code treats values
opaquely, using only equality and list membership).  Variables are identified
by their index into the CSP's variable list; the mutable per-variable state
(`dom`, `curdom`, `assignedValue`) becomes the structure `VarState`; the
mutable collection of all variables becomes a `List VarState`, updated
functionally.  Python's error `print` followed by `return` (no state change)
is modelled as returning the state unchanged, together with a success flag
where a claim needs to observe that an error was reported.
-/

abbrev Val := Int

/-- State of one `Variable` object: permanent domain `dom`, the current-domain
flag per domain position `curdom`, and the assignment slot `assignedValue`. -/
structure VarState where
  dom : List Val
  curdom : List Bool
  assignedValue : Option Val
deriving DecidableEq, Repr

/-- `Variable.__init__`: fresh variable with all current-domain flags true and
no assignment. -/
def VarState.mk_var (domain : List Val) : VarState :=
  ⟨domain, List.replicate domain.length true, none⟩

/-- `Variable.value_index`: index of `value` in the permanent domain
(`list.index`; the Python raises for absent values, callers only use it on
domain members). -/
def VarState.value_index (s : VarState) (value : Val) : Nat :=
  s.dom.indexOf value

/-- `Variable.is_assigned`: the assignment slot is non-`None`. -/
def VarState.is_assigned (s : VarState) : Bool :=
  s.assignedValue.isSome

/-- `Variable.get_assigned_value`. -/
def VarState.get_assigned_value (s : VarState) : Option Val :=
  s.assignedValue

/-- `Variable.prune_value`: set the flag of `value` to false. -/
def VarState.prune_value (s : VarState) (value : Val) : VarState :=
  { s with curdom := s.curdom.set (s.value_index value) false }

/-- `Variable.unprune_value`: set the flag of `value` to true. -/
def VarState.unprune_value (s : VarState) (value : Val) : VarState :=
  { s with curdom := s.curdom.set (s.value_index value) true }

/-- `Variable.cur_domain`: the singleton assigned value if assigned, else the
domain values whose flag is true, in domain order. -/
def VarState.cur_domain (s : VarState) : List Val :=
  match s.assignedValue with
  | some a => [a]
  | none => (s.dom.zip s.curdom).filterMap (fun p => if p.2 then some p.1 else none)

/-- `Variable.in_cur_domain`: false for values outside the permanent domain;
for an assigned variable, equality with the assigned value; otherwise the
current-domain flag at the value's index. -/
def VarState.in_cur_domain (s : VarState) (value : Val) : Bool :=
  if value ∈ s.dom then
    match s.assignedValue with
    | some a => value = a
    | none => s.curdom.getD (s.value_index value) false
  else false

/-- `Variable.cur_domain_size`: 1 if assigned, else the number of true flags. -/
def VarState.cur_domain_size (s : VarState) : Nat :=
  if s.is_assigned then 1 else (s.curdom.filter id).length

/-- `Variable.restore_curdom`: set every flag to true. -/
def VarState.restore_curdom (s : VarState) : VarState :=
  { s with curdom := s.curdom.map (fun _ => true) }

/-- `Variable.assign`: error (no state change) if already assigned or the
value is not in the current domain; otherwise set the assignment slot,
leaving the flags untouched. -/
def VarState.assign (s : VarState) (value : Val) : VarState :=
  if s.is_assigned || !(s.in_cur_domain value) then s
  else { s with assignedValue := some value }

/-- `Variable.unassign`: error (no state change) if not assigned; otherwise
clear the assignment slot. -/
def VarState.unassign (s : VarState) : VarState :=
  if !s.is_assigned then s
  else { s with assignedValue := none }

/-! ### Constraint -/

/-- State of one `Constraint` object: ordered scope (variable indices) and the
list of tuples handed to `add_satisfying_tuples` (the Python keeps them in a
dict `sat_tuples` and an index `sup_tuples` from (variable, value) pairs to
the tuples containing that pair; both are derived from the added tuples, and
`sup_tuples` is recovered below by filtering). -/
structure Constraint where
  scope : List Nat
  sat_tuples : List (List Val)
deriving DecidableEq, Repr

/-- The default variable state used to read a variable list at an index
(indices used by the code are always in range). -/
def defaultVS : VarState := ⟨[], [], none⟩

/-- Read variable `i` of the CSP's variable list. -/
def getV (vars : List VarState) (i : Nat) : VarState :=
  vars.getD i defaultVS

/-- `Constraint.tuple_is_valid`: every tuple component is in the corresponding
scope variable's current domain. -/
def Constraint.tuple_is_valid (vars : List VarState) (c : Constraint)
    (t : List Val) : Bool :=
  (c.scope.zip t).all (fun p => (getV vars p.1).in_cur_domain p.2)

/-- The `sup_tuples[(var, val)]` support list: the satisfying tuples that
contain value `val` at a scope position holding variable `v` (the Python
builds this index incrementally in `add_satisfying_tuples`; for a missing key
the lookup in `has_support` yields no tuples, matching the empty filter). -/
def Constraint.supTuples (c : Constraint) (v : Nat) (val : Val) : List (List Val) :=
  c.sat_tuples.filter (fun t => (c.scope.zip t).any (fun p => p.1 == v && p.2 == val))

/-- `Constraint.has_support`: some tuple of the (var, val) support list is
valid, i.e. every component of it is in its variable's current domain. -/
def Constraint.has_support (vars : List VarState) (c : Constraint)
    (v : Nat) (val : Val) : Bool :=
  (c.supTuples v val).any (c.tuple_is_valid vars)

/-- Spec-side reading of `has_support` ("Modelled from the spec's words, for
comparison with the source function"): some satisfying tuple assigns `val` to
`v` at a scope position and every component at the *other* positions is in
its variable's current domain — the value's own membership is not required. -/
def Constraint.has_support_spec (vars : List VarState) (c : Constraint)
    (v : Nat) (val : Val) : Bool :=
  c.sat_tuples.any (fun t =>
    (List.range c.scope.length).any (fun i =>
      c.scope.getD i 0 == v && t.getD i 0 == val &&
        (List.range c.scope.length).all (fun j =>
          j == i || (getV vars (c.scope.getD j 0)).in_cur_domain (t.getD j 0))))

/-- `Constraint.get_n_unasgn`: number of unassigned variables in the scope. -/
def Constraint.get_n_unasgn (vars : List VarState) (c : Constraint) : Nat :=
  (c.scope.filter (fun i => !(getV vars i).is_assigned)).length

/-- `Constraint.get_unasgn_vars`: the unassigned variables of the scope, in
scope order. -/
def Constraint.get_unasgn_vars (vars : List VarState) (c : Constraint) : List Nat :=
  c.scope.filter (fun i => !(getV vars i).is_assigned)

/-! ### CSP container -/

/-- State of a `CSP` object: the constraint list `cons` and the
variable-to-constraints index `vars_to_cons`, modelled as an association list
from variable index to its constraint list (its keys are the registered
variables). -/
structure CSPState where
  cons : List Constraint
  vars_to_cons : List (Nat × List Constraint)
deriving DecidableEq, Repr

/-- Membership test `v in self.vars_to_cons` (dict key lookup). -/
def CSPState.hasVar (csp : CSPState) (v : Nat) : Bool :=
  csp.vars_to_cons.any (fun p => p.1 == v)

/-- `self.vars_to_cons[v].append(c)`. -/
def CSPState.appendCon (csp : CSPState) (v : Nat) (c : Constraint) : CSPState :=
  { csp with vars_to_cons :=
      csp.vars_to_cons.map (fun p => if p.1 = v then (p.1, p.2 ++ [c]) else p) }

/-- The scope loop of `CSP.add_constraint`: walk the scope in order; on the
first unregistered variable report an error and return (flag `false`), the
updates already made staying in place; if all are registered, append `c` to
every scope variable's index entry and then to the constraint list. -/
def addConstraintLoop (c : Constraint) : List Nat → CSPState → CSPState × Bool
  | [], csp => ({ csp with cons := csp.cons ++ [c] }, true)
  | v :: rest, csp =>
    if csp.hasVar v then addConstraintLoop c rest (csp.appendCon v c)
    else (csp, false)

/-- `CSP.add_constraint` (for a genuine `Constraint` argument): returns the
new CSP state and `true`, or the state reached when the error was reported
and `false`. -/
def CSPState.add_constraint (csp : CSPState) (c : Constraint) : CSPState × Bool :=
  addConstraintLoop c c.scope csp

/-! ### BT engine: state operations -/

/-- Update variable `i` of the variable list by `f`. -/
def updV (vars : List VarState) (i : Nat) (f : VarState → VarState) : List VarState :=
  vars.set i (f (getV vars i))

/-- `var.assign(val)` on the variable list. -/
def assignVar (vars : List VarState) (i : Nat) (val : Val) : List VarState :=
  updV vars i (fun s => s.assign val)

/-- `var.unassign()` on the variable list. -/
def unassignVar (vars : List VarState) (i : Nat) : List VarState :=
  updV vars i (fun s => s.unassign)

/-- `var.prune_value(val)` on the variable list. -/
def pruneVar (vars : List VarState) (i : Nat) (val : Val) : List VarState :=
  updV vars i (fun s => s.prune_value val)

/-- `var.unprune_value(val)` on the variable list. -/
def unpruneVar (vars : List VarState) (i : Nat) (val : Val) : List VarState :=
  updV vars i (fun s => s.unprune_value val)

/-- The pruning performed by a propagator call: each returned (variable,
value) pair has been pruned, in order. -/
def applyPrunings (prunings : List (Nat × Val)) (vars : List VarState) : List VarState :=
  prunings.foldl (fun vs p => pruneVar vs p.1 p.2) vars

/-- `BT.restoreValues`: unprune each pair of the pruning list. -/
def restoreValues (prunings : List (Nat × Val)) (vars : List VarState) : List VarState :=
  prunings.foldl (fun vs p => unpruneVar vs p.1 p.2) vars

/-- `BT.restore_all_variable_domains`: unassign every assigned variable and
restore its current domain. -/
def restore_all (vars : List VarState) : List VarState :=
  vars.map (fun s => (if s.is_assigned then s.unassign else s).restore_curdom)

/-- The `unasgn_vars` initialisation of `bt_search`: indices of the variables
not currently assigned, in variable order. -/
def initUnasgn (vars : List VarState) : List Nat :=
  (List.range vars.length).filter (fun i => !(getV vars i).is_assigned)

/-- A propagator, as `bt_search` documents it: from the variable states and
the optional newly assigned variable, a continue/deadend flag and the list of
(variable, value) pairs the call pruned.  The state effect of the call is
`applyPrunings` of that list (the documented contract: the list is exactly
what the call pruned, nothing pruned twice). -/
abbrev Propagator := List VarState → Option Nat → Bool × List (Nat × Val)

/-! ### MRV selection -/

/-- The `md`/`mv` loop body of `BT.extractMRVvar`: the current best is
replaced exactly when a strictly smaller current-domain size is seen. -/
def mrvFold (vars : List VarState) : Nat × Nat → List Nat → Nat × Nat
  | p, [] => p
  | p, v :: rest =>
    if (getV vars v).cur_domain_size < p.2
    then mrvFold vars (v, (getV vars v).cur_domain_size) rest
    else mrvFold vars p rest

/-- `BT.extractMRVvar` on a non-empty unassigned list: the first iteration
(`md < 0`) takes the head, the rest runs the strict-improvement loop. -/
def mrvPick (vars : List VarState) (v : Nat) (rest : List Nat) : Nat :=
  (mrvFold vars (v, (getV vars v).cur_domain_size) rest).1

/-- `BT.extractMRVvar`: pick the minimum-size variable and remove it from the
unassigned list (`list.remove` deletes the first occurrence).  The Python
raises on an empty list (`remove(None)`), modelled as `none`. -/
def extractMRVvar (vars : List VarState) : List Nat → Option (Nat × List Nat)
  | [] => none
  | v :: rest => some (mrvPick vars v rest, (v :: rest).erase (mrvPick vars v rest))

/-- `BT.extractMRVvar_MS`: first any unassigned variable of current-domain
size 1; failing that, the first unassigned scope variable of the first
constraint with exactly one unassigned variable; else `None` (the unassigned
list untouched). -/
def extractMRVvar_MS (cons : List Constraint) (vars : List VarState)
    (unasgn : List Nat) : Option (Nat × List Nat) :=
  match unasgn.find? (fun i => (getV vars i).cur_domain_size == 1) with
  | some v => some (v, unasgn.erase v)
  | none =>
    match cons.find? (fun c => c.get_n_unasgn vars == 1) with
    | some c =>
      match c.get_unasgn_vars vars with
      | mv :: _ => some (mv, unasgn.erase mv)
      | [] => none
    | none => none

/-! ### Backtracking recursion

The Python recursion terminates because each level removes one variable from
the unassigned list; the embedding makes this explicit with a fuel argument
(`none` = fuel exhausted, proved unreachable for fuel above the unassigned
count). -/

/-- The value loop of `BT.bt_recurse` over the selected variable's current
domain, parameterised by the recursive search call `recurse`.  Each
iteration assigns, runs the propagator, recurses on success of propagation,
and on failure restores that iteration's prunings and unassigns; a successful
recursion is returned as is. When the values run out the variable is appended
back to the unassigned list (`BT.restoreUnasgnVar`) and failure is reported. -/
def tryVals (prop : Propagator)
    (recurse : List VarState → List Nat → Option (Bool × List VarState × List Nat))
    (mv : Nat) : List Val → List VarState → List Nat →
    Option (Bool × List VarState × List Nat)
  | [], vars, unasgn => some (false, vars, unasgn ++ [mv])
  | val :: more, vars, unasgn =>
    let vars1 := assignVar vars mv val
    let res := prop vars1 (some mv)
    let vars2 := applyPrunings res.2 vars1
    if res.1 then
      match recurse vars2 unasgn with
      | none => none
      | some (true, vars3, un3) => some (true, vars3, un3)
      | some (false, vars3, un3) =>
        tryVals prop recurse mv more (unassignVar (restoreValues res.2 vars3) mv) un3
    else
      tryVals prop recurse mv more (unassignVar (restoreValues res.2 vars2) mv) unasgn

/-- `BT.bt_recurse`: success when no unassigned variables remain, otherwise
MRV selection followed by the value loop. -/
def bt_recurse (prop : Propagator) : Nat → List VarState → List Nat →
    Option (Bool × List VarState × List Nat)
  | 0, _, _ => none
  | fuel + 1, vars, unasgn =>
    match unasgn with
    | [] => some (true, vars, [])
    | v :: rest =>
      tryVals prop (fun vs un => bt_recurse prop fuel vs un) (mrvPick vars v rest)
        (getV vars (mrvPick vars v rest)).cur_domain vars
        ((v :: rest).erase (mrvPick vars v rest))

/-- `BT.bt_search`: restore all domains and assignments, collect the
unassigned variables, run the root propagation, search recursively unless the
root reported a contradiction, and restore the root prunings; the flag is the
final search status (`False` printed as "unsolved / no solutions"). -/
def bt_search (prop : Propagator) (vars : List VarState) :
    Option (Bool × List VarState) :=
  let vars0 := restore_all vars
  let unasgn := initUnasgn vars0
  let res := prop vars0 none
  let vars1 := applyPrunings res.2 vars0
  if res.1 then
    match bt_recurse prop (vars0.length + 1) vars1 unasgn with
    | some (st, vars2, _) => some (st, restoreValues res.2 vars2)
    | none => none
  else some (false, restoreValues res.2 vars1)

/-! ### Minesweeper mode -/

/-- The value loop of `BT.bt_recurse_MS`: as `tryVals`, additionally carrying
the `nDecisions` counter, incremented at each trial assignment. -/
def tryVals_MS (prop : Propagator)
    (recurse : Nat → List VarState → List Nat →
      Option (Bool × Nat × List VarState × List Nat))
    (mv : Nat) : List Val → Nat → List VarState → List Nat →
    Option (Bool × Nat × List VarState × List Nat)
  | [], nDec, vars, unasgn => some (false, nDec, vars, unasgn ++ [mv])
  | val :: more, nDec, vars, unasgn =>
    let vars1 := assignVar vars mv val
    let res := prop vars1 (some mv)
    let vars2 := applyPrunings res.2 vars1
    if res.1 then
      match recurse (nDec + 1) vars2 unasgn with
      | none => none
      | some (true, nDec3, vars3, un3) => some (true, nDec3, vars3, un3)
      | some (false, nDec3, vars3, un3) =>
        tryVals_MS prop recurse mv more nDec3
          (unassignVar (restoreValues res.2 vars3) mv) un3
    else
      tryVals_MS prop recurse mv more (nDec + 1)
        (unassignVar (restoreValues res.2 vars2) mv) unasgn

/-- `BT.bt_recurse_MS`: like `bt_recurse` but selecting with
`extractMRVvar_MS`, and returning success when no variable could be forced. -/
def bt_recurse_MS (prop : Propagator) (cons : List Constraint) :
    Nat → Nat → List VarState → List Nat →
    Option (Bool × Nat × List VarState × List Nat)
  | 0, _, _, _ => none
  | fuel + 1, nDec, vars, unasgn =>
    match unasgn with
    | [] => some (true, nDec, vars, [])
    | v :: rest =>
      match extractMRVvar_MS cons vars (v :: rest) with
      | none => some (true, nDec, vars, v :: rest)
      | some (mv, restList) =>
        tryVals_MS prop (fun n vs un => bt_recurse_MS prop cons fuel n vs un) mv
          (getV vars mv).cur_domain nDec vars restList

/-- `BT.bt_search_MS`: like `bt_search` but without the domain/assignment
reset at entry (assignments made by the caller persist), and returning the
`nDecisions` counter (cleared at entry by `clear_stats`). -/
def bt_search_MS (prop : Propagator) (cons : List Constraint)
    (vars : List VarState) : Option (Nat × Bool × List VarState) :=
  let unasgn := initUnasgn vars
  let res := prop vars none
  let vars1 := applyPrunings res.2 vars
  if res.1 then
    match bt_recurse_MS prop cons (vars.length + 1) 0 vars1 unasgn with
    | some (st, nDec, vars2, _) => some (nDec, st, restoreValues res.2 vars2)
    | none => none
  else some (0, false, restoreValues res.2 vars1)

/-! ### Operation sequences on a variable's current domain -/

/-- One call of the pruning interface of `Variable`. -/
inductive DomOp where
  | prune (value : Val)
  | unprune (value : Val)
deriving DecidableEq, Repr

/-- The value an operation is about. -/
def DomOp.value : DomOp → Val
  | .prune v => v
  | .unprune v => v

/-- Run one pruning-interface call. -/
def applyDomOp (s : VarState) : DomOp → VarState
  | .prune v => s.prune_value v
  | .unprune v => s.unprune_value v

/-- Run a sequence of pruning-interface calls in order. -/
def applyDomOps (s : VarState) (ops : List DomOp) : VarState :=
  ops.foldl applyDomOp s

/-! ### Contract and invariant predicates -/

/-- The documented contract on the list a propagator call returns, relative
to the variable states at the call: pairwise distinct (nothing pruned twice),
each variable index in range, each value in that variable's permanent domain
with its current-domain flag still true (only newly pruned pairs). -/
def goodPrunings (vars : List VarState) (ps : List (Nat × Val)) : Prop :=
  ps.Pairwise (fun p q => p ≠ q) ∧
  ∀ p ∈ ps, p.1 < vars.length ∧ p.2 ∈ (getV vars p.1).dom ∧
    (getV vars p.1).curdom.getD ((getV vars p.1).value_index p.2) false = true

/-- A propagator honouring the contract at every call state. -/
def PropContract (prop : Propagator) : Prop :=
  ∀ vars ov, goodPrunings vars (prop vars ov).2

/-- Structural well-formedness of the variable states, guaranteed by the
`Variable` constructor: flag list as long as the domain, and (as in every use
in the repository, where domains list distinct values) no duplicate domain
values. -/
def DomInv (vars : List VarState) : Prop :=
  ∀ i, i < vars.length →
    (getV vars i).curdom.length = (getV vars i).dom.length ∧ (getV vars i).dom.Nodup

/-- The `unasgn_vars` bookkeeping invariant of the search: the list holds
exactly the indices of the unassigned variables, without duplicates. -/
def UnasgnInv (vars : List VarState) (unasgn : List Nat) : Prop :=
  unasgn.Nodup ∧ (∀ i ∈ unasgn, i < vars.length) ∧
  (∀ i, i < vars.length → ((getV vars i).is_assigned = false ↔ i ∈ unasgn))

/-- As `UnasgnInv`, but for the states inside the value loop: the selected
variable `mv` has been removed from the list while still unassigned. -/
def LoopInv (vars : List VarState) (unasgn : List Nat) (mv : Nat) : Prop :=
  unasgn.Nodup ∧ mv ∉ unasgn ∧ mv < vars.length ∧
  (getV vars mv).is_assigned = false ∧ (∀ i ∈ unasgn, i < vars.length) ∧
  (∀ i, i < vars.length → ((getV vars i).is_assigned = false ↔ (i ∈ unasgn ∨ i = mv)))

/-- Number of variables assigned in `post` that were not assigned in `pre`. -/
def countNewlyAssigned (pre post : List VarState) : Nat :=
  ((List.range post.length).filter
    (fun i => (getV post i).is_assigned && !(getV pre i).is_assigned)).length

/-! ### Concrete instances used by counterexamples and witnesses -/

/-- A single unassigned variable with domain {1, 2} whose value 1 is pruned. -/
def c1vars : List VarState := [⟨[1, 2], [false, true], none⟩]

/-- A unary constraint over variable 0 whose sole satisfying tuple is (1). -/
def c1con : Constraint := ⟨[0], [[1]]⟩

/-- A CSP with variable 0 registered (empty index entry) and no constraints. -/
def c4csp : CSPState := ⟨[], [(0, [])]⟩

/-- A constraint whose scope mentions registered variable 0 and unregistered
variable 1. -/
def c4con : Constraint := ⟨[0, 1], []⟩

/-- A propagator that accepts the root call and reports a deadend after any
assignment, pruning nothing. -/
def c3prop : Propagator := fun _ ov =>
  match ov with
  | none => (true, [])
  | some _ => (false, [])

/-- One unassigned variable with domain {0, 1} whose value 1 is pruned, so
its current domain has size 1. -/
def c3vars : List VarState := [⟨[0, 1], [true, false], none⟩]

/-- A propagator that always continues and prunes nothing. -/
def idProp : Propagator := fun _ _ => (true, [])

/-- A propagator that reports a contradiction at every call, pruning
nothing. -/
def failProp : Propagator := fun _ _ => (false, [])

/-- Two fresh unassigned variables with domain {0, 1}. -/
def c2vars : List VarState :=
  [⟨[0, 1], [true, true], none⟩, ⟨[0, 1], [true, true], none⟩]

/-- One fresh unassigned variable with the singleton domain {0}. -/
def c8vars : List VarState := [⟨[0], [true], none⟩]

/-- A variable with domain {0, 1}, all flags true, assigned to 0 (the state
reached from a fresh variable by `assign(0)`). -/
def c9assigned : VarState := ⟨[0, 1], [true, true], some 0⟩

/-- A binary constraint over variable 0 alone, used by the C7 witness. -/
def c7con : Constraint := ⟨[0], []⟩

/-- One fresh unassigned variable with domain {0, 1}. -/
def c7vars : List VarState := [⟨[0, 1], [true, true], none⟩]

/-! ### Helper lemmas: pruning-interface sequences -/

theorem applyDomOp_dom (s : VarState) (op : DomOp) : (applyDomOp s op).dom = s.dom := by
  cases op <;> rfl

theorem applyDomOp_assignedValue (s : VarState) (op : DomOp) :
    (applyDomOp s op).assignedValue = s.assignedValue := by
  cases op <;> rfl

theorem applyDomOp_curdom_length (s : VarState) (op : DomOp) :
    (applyDomOp s op).curdom.length = s.curdom.length := by
  cases op <;> simp [applyDomOp, VarState.prune_value, VarState.unprune_value]

theorem applyDomOps_dom (ops : List DomOp) (s : VarState) :
    (applyDomOps s ops).dom = s.dom := by
  induction ops generalizing s with
  | nil => rfl
  | cons op ops ih => simp [applyDomOps, List.foldl_cons] at ih ⊢
                      rw [ih, applyDomOp_dom]

theorem applyDomOps_assignedValue (ops : List DomOp) (s : VarState) :
    (applyDomOps s ops).assignedValue = s.assignedValue := by
  induction ops generalizing s with
  | nil => rfl
  | cons op ops ih => simp [applyDomOps, List.foldl_cons] at ih ⊢
                      rw [ih, applyDomOp_assignedValue]

theorem applyDomOps_curdom_length (ops : List DomOp) (s : VarState) :
    (applyDomOps s ops).curdom.length = s.curdom.length := by
  induction ops generalizing s with
  | nil => rfl
  | cons op ops ih => simp [applyDomOps, List.foldl_cons] at ih ⊢
                      rw [ih, applyDomOp_curdom_length]

theorem filterMap_zip_all_true (dom : List Val) :
    (dom.zip (List.replicate dom.length true)).filterMap
      (fun p => if p.2 then some p.1 else none) = dom := by
  induction dom with
  | nil => simp
  | cons d ds ih =>
      simp [List.replicate_succ, List.zip_cons_cons, List.filterMap_cons, ih]

/-! ### C9: restoration after pruning sequences -/

/-- C9 counterexample: the claim quantifies over every `Variable`, but for an
assigned variable (here: a fresh variable with domain {0, 1} legally assigned
to 0) `cur_domain` after `restore_curdom` is the assigned singleton, not the
full permanent domain, even for the empty (hence domain-respecting) sequence
of pruning calls. -/
theorem c9_counterexample :
    (VarState.mk_var [0, 1]).assign 0 = c9assigned ∧
    (∀ op ∈ ([] : List DomOp), op.value ∈ c9assigned.dom) ∧
    ((applyDomOps c9assigned []).restore_curdom).cur_domain ≠ c9assigned.dom := by
  decide

/-- C9 (amended): for every *unassigned* variable (with the constructor
invariant that the flag list is as long as the domain) and any sequence of
`prune_value`/`unprune_value` calls on values of its permanent domain,
`restore_curdom` afterwards makes the current domain equal to the full
permanent domain. -/
theorem c9_restore_after_ops (s : VarState) (ops : List DomOp)
    (hlen : s.curdom.length = s.dom.length) (hun : s.assignedValue = none)
    (_hops : ∀ op ∈ ops, op.value ∈ s.dom) :
    ((applyDomOps s ops).restore_curdom).cur_domain = s.dom := by
  have hdom := applyDomOps_dom ops s
  have hass := applyDomOps_assignedValue ops s
  have hl := applyDomOps_curdom_length ops s
  unfold VarState.restore_curdom VarState.cur_domain
  simp only [hass, hun]
  rw [List.map_const', hl, hlen, ← hdom]
  exact filterMap_zip_all_true _

/-- C9 witness: the amended statement applied to a fresh unassigned variable
with domain {0, 1} and the sequence that prunes 0. -/
theorem c9_restore_after_ops_witness :
    ((applyDomOps (VarState.mk_var [0, 1]) [DomOp.prune 0]).restore_curdom).cur_domain
      = [0, 1] :=
  c9_restore_after_ops (VarState.mk_var [0, 1]) [DomOp.prune 0]
    (by decide) (by decide) (by decide)

/-! ### C5: assign -/

/-- C5: `assign(v)` leaves the whole variable state unchanged when the
variable is already assigned or `v` is not in its current domain; otherwise
it sets the assignment slot to `v` and changes nothing else (in particular
every current-domain flag is left as it was). -/
theorem c5_assign_spec (s : VarState) (value : Val) :
    ((s.is_assigned = true ∨ s.in_cur_domain value = false) → s.assign value = s) ∧
    (s.is_assigned = false → s.in_cur_domain value = true →
      s.assign value = { s with assignedValue := some value }) := by
  constructor
  · intro h
    unfold VarState.assign
    rcases h with h | h <;> simp [h]
  · intro h1 h2
    unfold VarState.assign
    simp [h1, h2]

/-- C5 witness: both branches at concrete inputs: assigning 2 to an already
assigned variable changes nothing; assigning 1 to a fresh variable sets only
the slot. -/
theorem c5_assign_spec_witness :
    VarState.assign ⟨[1, 2], [true, true], some 1⟩ 2 = ⟨[1, 2], [true, true], some 1⟩ ∧
    VarState.assign ⟨[1, 2], [true, true], none⟩ 1 = ⟨[1, 2], [true, true], some 1⟩ :=
  ⟨(c5_assign_spec ⟨[1, 2], [true, true], some 1⟩ 2).1 (Or.inl rfl),
   (c5_assign_spec ⟨[1, 2], [true, true], none⟩ 1).2 rfl (by decide)⟩

/-! ### C10: values outside the permanent domain -/

/-- C10: for a value outside the permanent domain, `in_cur_domain` returns
false whatever the assignment state and flags, and therefore `assign` on such
a value always fails, leaving the variable unchanged. -/
theorem c10_outside_domain (s : VarState) (value : Val) (h : value ∉ s.dom) :
    s.in_cur_domain value = false ∧ s.assign value = s := by
  have h1 : s.in_cur_domain value = false := by
    unfold VarState.in_cur_domain
    simp [h]
  refine ⟨h1, ?_⟩
  unfold VarState.assign
  simp [h1]

/-- C10 witness: value 5 outside the domain {1, 2} of an unassigned variable
whose flags are all true. -/
theorem c10_outside_domain_witness :
    VarState.in_cur_domain ⟨[1, 2], [true, true], none⟩ 5 = false ∧
    VarState.assign ⟨[1, 2], [true, true], none⟩ 5 = ⟨[1, 2], [true, true], none⟩ :=
  c10_outside_domain ⟨[1, 2], [true, true], none⟩ 5 (by decide)

/-! ### C1: has_support -/

/-- C1 counterexample: variable 0 has domain {1, 2} with value 1 pruned; the
constraint over it alone has the single satisfying tuple (1).  The spec-side
condition (some tuple assigns 1 to variable 0 with every *other* component
in-domain) holds, yet `has_support` returns false, because the code also
checks the queried value's own membership — with value 1 unpruned the same
call returns true, so the result does depend on that membership. -/
theorem c1_counterexample :
    Constraint.has_support c1vars c1con 0 1 = false ∧
    Constraint.has_support_spec c1vars c1con 0 1 = true ∧
    Constraint.has_support [⟨[1, 2], [true, true], none⟩] c1con 0 1 = true := by
  decide

/-- C1 (amended): `has_support(var, val)` returns true iff some satisfying
tuple assigns `val` to `var` and *every* component of that tuple — the
queried pair included — is in its corresponding variable's current domain;
the result therefore does depend on whether `val` is currently pruned from
`var`'s domain. -/
theorem c1_has_support_iff (vars : List VarState) (c : Constraint)
    (v : Nat) (val : Val) :
    c.has_support vars v val = true ↔
      ∃ t, t ∈ c.sat_tuples ∧ (v, val) ∈ c.scope.zip t ∧
        ∀ p ∈ c.scope.zip t, (getV vars p.1).in_cur_domain p.2 = true := by
  simp only [Constraint.has_support, Constraint.supTuples, Constraint.tuple_is_valid,
    List.any_eq_true, List.mem_filter, Bool.and_eq_true, beq_iff_eq,
    List.all_eq_true]
  constructor
  · rintro ⟨t, ⟨ht, hmem⟩, hvalid⟩
    rcases hmem with ⟨p, hp, hp1, hp2⟩
    refine ⟨t, ht, ?_, hvalid⟩
    have : p = (v, val) := Prod.ext hp1 hp2
    rwa [this] at hp
  · rintro ⟨t, ht, hmem, hvalid⟩
    exact ⟨t, ⟨ht, ⟨(v, val), hmem, rfl, rfl⟩⟩, hvalid⟩

/-! ### C4: add_constraint with an unregistered scope variable -/

theorem appendCon_cons (csp : CSPState) (v : Nat) (c : Constraint) :
    (csp.appendCon v c).cons = csp.cons := rfl

theorem any_map_key (l : List (Nat × List Constraint)) (v : Nat) (c : Constraint)
    (w : Nat) :
    ((l.map (fun p => if p.1 = v then (p.1, p.2 ++ [c]) else p)).any
        (fun p => p.1 == w))
      = l.any (fun p => p.1 == w) := by
  induction l with
  | nil => rfl
  | cons a as ih =>
      simp only [List.map_cons, List.any_cons, ih]
      by_cases h : a.1 = v <;> simp [h]

theorem appendCon_hasVar (csp : CSPState) (v : Nat) (c : Constraint) (w : Nat) :
    (csp.appendCon v c).hasVar w = csp.hasVar w := by
  unfold CSPState.hasVar CSPState.appendCon
  exact any_map_key csp.vars_to_cons v c w

theorem addConstraintLoop_unknown (c : Constraint) :
    ∀ (scope : List Nat) (csp : CSPState),
      (∃ v ∈ scope, csp.hasVar v = false) →
      (addConstraintLoop c scope csp).2 = false ∧
      (addConstraintLoop c scope csp).1.cons = csp.cons ∧
      (addConstraintLoop c scope csp).1.vars_to_cons =
        ((scope.takeWhile (fun v => csp.hasVar v)).foldl
          (fun acc v => acc.appendCon v c) csp).vars_to_cons := by
  intro scope
  induction scope with
  | nil => intro csp h; simp at h
  | cons v rest ih =>
      intro csp h
      by_cases hv : csp.hasVar v
      · have hpred : (fun w => (csp.appendCon v c).hasVar w) = fun w => csp.hasVar w := by
          funext w
          exact appendCon_hasVar csp v c w
        have hex : ∃ w ∈ rest, (csp.appendCon v c).hasVar w = false := by
          rcases h with ⟨w, hw, hwf⟩
          rcases List.mem_cons.mp hw with rfl | hw'
          · rw [hv] at hwf
            exact absurd hwf (by simp)
          · exact ⟨w, hw', by rw [appendCon_hasVar]; exact hwf⟩
        have := ih (csp.appendCon v c) hex
        refine ⟨?_, ?_, ?_⟩
        · simpa [addConstraintLoop, hv] using this.1
        · have h2 := this.2.1
          rw [appendCon_cons] at h2
          simpa [addConstraintLoop, hv] using h2
        · have h3 := this.2.2
          rw [show rest.takeWhile (fun w => (csp.appendCon v c).hasVar w)
                = rest.takeWhile (fun w => csp.hasVar w) from by rw [hpred]] at h3
          simp only [addConstraintLoop, hv, if_true]
          rw [h3]
          have : (v :: rest).takeWhile (fun w => csp.hasVar w)
              = v :: rest.takeWhile (fun w => csp.hasVar w) := by
            simp [List.takeWhile_cons, hv]
          rw [this, List.foldl_cons]
      · refine ⟨?_, ?_, ?_⟩
        · simp [addConstraintLoop, hv]
        · simp [addConstraintLoop, hv]
        · have : (v :: rest).takeWhile (fun w => csp.hasVar w) = [] := by
            simp [List.takeWhile_cons, hv]
          simp [addConstraintLoop, hv, this]

/-- C4 counterexample: a CSP with only variable 0 registered and a constraint
over scope (0, 1).  `add_constraint` rejects it (error flag, constraint not
appended), but the variable-to-constraints index is *not* the same as before
the call: the registered prefix variable 0 already received the constraint. -/
theorem c4_counterexample :
    (c4csp.add_constraint c4con).2 = false ∧
    (c4csp.add_constraint c4con).1.cons = c4csp.cons ∧
    (c4csp.add_constraint c4con).1.vars_to_cons ≠ c4csp.vars_to_cons := by
  decide

/-- C4 (amended): when some scope variable is unregistered, `add_constraint`
reports an error (not a silent no-op) and does not append the constraint to
the constraints sequence, but the variable-to-constraints index keeps the
partial registration of the scope prefix before the first unregistered
variable: each variable of that prefix has the constraint appended to its
entry. -/
theorem c4_add_constraint_unknown (csp : CSPState) (c : Constraint)
    (h : ∃ v ∈ c.scope, csp.hasVar v = false) :
    (csp.add_constraint c).2 = false ∧
    (csp.add_constraint c).1.cons = csp.cons ∧
    (csp.add_constraint c).1.vars_to_cons =
      ((c.scope.takeWhile (fun v => csp.hasVar v)).foldl
        (fun acc v => acc.appendCon v c) csp).vars_to_cons :=
  addConstraintLoop_unknown c c.scope csp h

/-- C4 witness: the amended statement at the concrete instance of the
counterexample. -/
theorem c4_add_constraint_unknown_witness :
    (c4csp.add_constraint c4con).2 = false ∧
    (c4csp.add_constraint c4con).1.cons = c4csp.cons ∧
    (c4csp.add_constraint c4con).1.vars_to_cons =
      ((c4con.scope.takeWhile (fun v => c4csp.hasVar v)).foldl
        (fun acc v => acc.appendCon v c4con) c4csp).vars_to_cons :=
  c4_add_constraint_unknown c4csp c4con (by decide)

/-! ### C6: extractMRVvar -/

theorem mrvFold_spec (vars : List VarState) :
    ∀ (rest : List Nat) (v : Nat),
      (mrvFold vars (v, (getV vars v).cur_domain_size) rest).2
          = (getV vars
              (mrvFold vars (v, (getV vars v).cur_domain_size) rest).1).cur_domain_size ∧
      (∀ w ∈ v :: rest,
        (mrvFold vars (v, (getV vars v).cur_domain_size) rest).2
          ≤ (getV vars w).cur_domain_size) ∧
      (v :: rest).find?
          (fun w => (getV vars w).cur_domain_size
            == (mrvFold vars (v, (getV vars v).cur_domain_size) rest).2)
        = some (mrvFold vars (v, (getV vars v).cur_domain_size) rest).1 := by
  intro rest
  induction rest with
  | nil =>
      intro v
      refine ⟨rfl, ?_, ?_⟩
      · intro w hw
        rcases List.mem_singleton.mp hw with rfl
        exact Nat.le_refl _
      · simp [mrvFold, List.find?]
  | cons w rest ih =>
      intro v
      by_cases hlt : (getV vars w).cur_domain_size < (getV vars v).cur_domain_size
      · have hstep : mrvFold vars (v, (getV vars v).cur_domain_size) (w :: rest)
            = mrvFold vars (w, (getV vars w).cur_domain_size) rest := by
          simp [mrvFold, hlt]
        rcases ih w with ⟨ih1, ih2, ih3⟩
        rw [hstep]
        have hle : (mrvFold vars (w, (getV vars w).cur_domain_size) rest).2
            ≤ (getV vars w).cur_domain_size := ih2 w (List.mem_cons_self w rest)
        refine ⟨ih1, ?_, ?_⟩
        · intro u hu
          rcases List.mem_cons.mp hu with rfl | hu'
          · exact Nat.le_of_lt (Nat.lt_of_le_of_lt hle hlt)
          · exact ih2 u hu'
        · have hv : ((getV vars v).cur_domain_size
              == (mrvFold vars (w, (getV vars w).cur_domain_size) rest).2) = false := by
            simp only [beq_eq_false_iff_ne, ne_eq]
            intro heq
            exact Nat.lt_irrefl _ (Nat.lt_of_le_of_lt (heq ▸ hle) hlt)
          rw [List.find?_cons, hv]
          exact ih3
      · have hstep : mrvFold vars (v, (getV vars v).cur_domain_size) (w :: rest)
            = mrvFold vars (v, (getV vars v).cur_domain_size) rest := by
          simp [mrvFold, hlt]
        rcases ih v with ⟨ih1, ih2, ih3⟩
        rw [hstep]
        have hle : (mrvFold vars (v, (getV vars v).cur_domain_size) rest).2
            ≤ (getV vars v).cur_domain_size := ih2 v (List.mem_cons_self v rest)
        have hvw : (getV vars v).cur_domain_size ≤ (getV vars w).cur_domain_size :=
          Nat.le_of_not_lt hlt
        refine ⟨ih1, ?_, ?_⟩
        · intro u hu
          rcases List.mem_cons.mp hu with rfl | hu'
          · exact ih2 u (List.mem_cons_self u rest)
          · rcases List.mem_cons.mp hu' with rfl | hu''
            · exact Nat.le_trans hle hvw
            · exact ih2 u (List.mem_cons_of_mem v hu'')
        · rw [List.find?_cons] at ih3 ⊢
          by_cases hv : ((getV vars v).cur_domain_size
              == (mrvFold vars (v, (getV vars v).cur_domain_size) rest).2) = true
          · rw [hv] at ih3 ⊢
            exact ih3
          · rw [Bool.not_eq_true] at hv
            rw [hv] at ih3 ⊢
            have hw : ((getV vars w).cur_domain_size
                == (mrvFold vars (v, (getV vars v).cur_domain_size) rest).2) = false := by
              simp only [beq_eq_false_iff_ne, ne_eq]
              intro heq
              have hveq : (getV vars v).cur_domain_size
                  = (mrvFold vars (v, (getV vars v).cur_domain_size) rest).2 :=
                Nat.le_antisymm (Nat.le_trans hvw (Nat.le_of_eq heq)) hle
              have hv' : (getV vars v).cur_domain_size
                  ≠ (mrvFold vars (v, (getV vars v).cur_domain_size) rest).2 := by
                simpa using hv
              exact hv' hveq
            rw [List.find?_cons, hw]
            exact ih3

/-- C6: on a non-empty unassigned list, `extractMRVvar` returns the variable
with the smallest current-domain size — the first one encountered with that
size (`find?` with the minimal size returns it) — removed from the list
(`remove` deletes the first occurrence, i.e. `erase`); the variable states
are not consulted except via `cur_domain_size` and not modified (the function
returns only the choice and the shrunk list). -/
theorem c6_extractMRVvar_spec (vars : List VarState) (v : Nat) (rest : List Nat) :
    extractMRVvar vars (v :: rest)
        = some (mrvPick vars v rest, (v :: rest).erase (mrvPick vars v rest)) ∧
    (∀ w ∈ v :: rest,
      (getV vars (mrvPick vars v rest)).cur_domain_size ≤ (getV vars w).cur_domain_size) ∧
    (v :: rest).find?
        (fun w => (getV vars w).cur_domain_size
          == (getV vars (mrvPick vars v rest)).cur_domain_size)
      = some (mrvPick vars v rest) := by
  rcases mrvFold_spec vars rest v with ⟨h1, h2, h3⟩
  refine ⟨rfl, ?_, ?_⟩
  · intro w hw
    have := h2 w hw
    rwa [h1] at this
  · simp only [mrvPick]
    rw [← h1]
    exact h3

/-! ### C7: extractMRVvar_MS -/

/-- C7: under the search bookkeeping invariant that every unassigned scope
variable of a constraint is in the unassigned list, `extractMRVvar_MS`
returns (removed from the unassigned list) a variable of current-domain size
1 if any exists; failing that, the sole unassigned scope variable of some
constraint with exactly one unassigned variable; and if neither condition
holds it returns no variable (the unassigned list is returned untouched only
implicitly: the caller keeps it). -/
theorem c7_extractMRVvar_MS_spec (cons : List Constraint) (vars : List VarState)
    (unasgn : List Nat)
    (hscope : ∀ c ∈ cons, ∀ i ∈ c.scope,
      (getV vars i).is_assigned = false → i ∈ unasgn) :
    ((∃ i ∈ unasgn, (getV vars i).cur_domain_size = 1) →
      ∃ i, i ∈ unasgn ∧ (getV vars i).cur_domain_size = 1 ∧
        extractMRVvar_MS cons vars unasgn = some (i, unasgn.erase i)) ∧
    ((∀ i ∈ unasgn, (getV vars i).cur_domain_size ≠ 1) →
      (∃ c ∈ cons, c.get_n_unasgn vars = 1) →
      ∃ i c, c ∈ cons ∧ c.get_n_unasgn vars = 1 ∧ i ∈ c.scope ∧
        (getV vars i).is_assigned = false ∧
        (∀ j ∈ c.scope, (getV vars j).is_assigned = false → j = i) ∧
        i ∈ unasgn ∧
        extractMRVvar_MS cons vars unasgn = some (i, unasgn.erase i)) ∧
    ((∀ i ∈ unasgn, (getV vars i).cur_domain_size ≠ 1) →
      (∀ c ∈ cons, c.get_n_unasgn vars ≠ 1) →
      extractMRVvar_MS cons vars unasgn = none) := by
  refine ⟨?_, ?_, ?_⟩
  · intro h
    cases hfind : unasgn.find? (fun i => (getV vars i).cur_domain_size == 1) with
    | none =>
        exfalso
        rcases h with ⟨i, hi, hsz⟩
        have := List.find?_eq_none.mp hfind i hi
        simp [hsz] at this
    | some v =>
        have hp := List.find?_some hfind
        have hm := List.mem_of_find?_eq_some hfind
        refine ⟨v, hm, by simpa using hp, ?_⟩
        simp [extractMRVvar_MS, hfind]
  · intro hno hex
    have hfind1 : unasgn.find? (fun i => (getV vars i).cur_domain_size == 1) = none := by
      rw [List.find?_eq_none]
      intro i hi
      simp [hno i hi]
    cases hfind2 : cons.find? (fun c => c.get_n_unasgn vars == 1) with
    | none =>
        exfalso
        rcases hex with ⟨c, hc, hn⟩
        have := List.find?_eq_none.mp hfind2 c hc
        simp [hn] at this
    | some c0 =>
        have hp := List.find?_some hfind2
        have hm := List.mem_of_find?_eq_some hfind2
        have hn : c0.get_n_unasgn vars = 1 := by simpa using hp
        have hlen : (c0.get_unasgn_vars vars).length = 1 := hn
        rcases List.length_eq_one.mp hlen with ⟨a, ha⟩
        have ham : a ∈ c0.get_unasgn_vars vars := by
          rw [ha]
          exact List.mem_singleton_self a
        rw [Constraint.get_unasgn_vars, List.mem_filter] at ham
        have hauna : (getV vars a).is_assigned = false := by simpa using ham.2
        refine ⟨a, c0, hm, hn, ham.1, hauna, ?_, hscope c0 hm a ham.1 hauna, ?_⟩
        · intro j hj hjuna
          have : j ∈ c0.get_unasgn_vars vars := by
            rw [Constraint.get_unasgn_vars, List.mem_filter]
            exact ⟨hj, by simp [hjuna]⟩
          rw [ha] at this
          exact List.mem_singleton.mp this
        · simp [extractMRVvar_MS, hfind1, hfind2, ha]
  · intro hno hnoc
    have hfind1 : unasgn.find? (fun i => (getV vars i).cur_domain_size == 1) = none := by
      rw [List.find?_eq_none]
      intro i hi
      simp [hno i hi]
    have hfind2 : cons.find? (fun c => c.get_n_unasgn vars == 1) = none := by
      rw [List.find?_eq_none]
      intro c hc
      simp [hnoc c hc]
    simp [extractMRVvar_MS, hfind1, hfind2]

/-- C7 witness: variable 0 (domain size 2, so not immediately forced) is the
sole unassigned variable of the constraint `c7con`, and the selector picks it
and removes it from the unassigned list. -/
theorem c7_extractMRVvar_MS_spec_witness :
    ∃ i c, c ∈ [c7con] ∧ c.get_n_unasgn c7vars = 1 ∧ i ∈ c.scope ∧
      (getV c7vars i).is_assigned = false ∧
      (∀ j ∈ c.scope, (getV c7vars j).is_assigned = false → j = i) ∧
      i ∈ [0] ∧
      extractMRVvar_MS [c7con] c7vars [0] = some (i, List.erase [0] i) :=
  (c7_extractMRVvar_MS_spec [c7con] c7vars [0] (by decide)).2.1 (by decide) (by decide)

/-! ### Helper lemmas: variable-list state operations -/

theorem set_true_of_getD (l : List Bool) (i : Nat) (h : l.getD i false = true) :
    l.set i true = l := by
  by_cases hl : i < l.length
  · apply List.ext_getElem?
    intro n
    by_cases hn : i = n
    · subst hn
      rw [List.getElem?_set_self hl]
      rw [List.getD_eq_getElem?_getD] at h
      cases hg : l[i]? with
      | none => rw [hg] at h; simp at h
      | some b =>
          rw [hg] at h
          simp at h
          rw [h]
    · rw [List.getElem?_set_ne hn]
  · rw [List.set_eq_of_length_le (Nat.le_of_not_lt hl)]

theorem length_updV (vars : List VarState) (i : Nat) (f : VarState → VarState) :
    (updV vars i f).length = vars.length := by
  simp [updV]

theorem getV_set_self (vars : List VarState) (i : Nat) (s : VarState)
    (h : i < vars.length) : getV (vars.set i s) i = s := by
  simp [getV, List.getD_eq_getElem?_getD, List.getElem?_set_self h]

theorem getV_set_ne (vars : List VarState) (i j : Nat) (s : VarState)
    (h : i ≠ j) : getV (vars.set i s) j = getV vars j := by
  simp [getV, List.getD_eq_getElem?_getD, List.getElem?_set_ne h]

theorem set_getV (vars : List VarState) (i : Nat) :
    vars.set i (getV vars i) = vars := by
  by_cases hl : i < vars.length
  · apply List.ext_getElem?
    intro n
    by_cases hn : i = n
    · subst hn
      rw [List.getElem?_set_self hl]
      cases hg : vars[i]? with
      | none =>
          rw [List.getElem?_eq_none_iff] at hg
          exact absurd hl (Nat.not_lt.mpr hg)
      | some s =>
          simp [getV, List.getD_eq_getElem?_getD, hg]
    · rw [List.getElem?_set_ne hn]
  · rw [List.set_eq_of_length_le (Nat.le_of_not_lt hl)]

theorem getV_updV_self (vars : List VarState) (i : Nat) (f : VarState → VarState)
    (h : i < vars.length) : getV (updV vars i f) i = f (getV vars i) :=
  getV_set_self vars i _ h

theorem getV_updV_ne (vars : List VarState) (i j : Nat) (f : VarState → VarState)
    (h : i ≠ j) : getV (updV vars i f) j = getV vars j :=
  getV_set_ne vars i j _ h

theorem updV_out (vars : List VarState) (i : Nat) (f : VarState → VarState)
    (h : ¬ i < vars.length) : updV vars i f = vars :=
  List.set_eq_of_length_le (Nat.le_of_not_lt h)

theorem updV_updV_same (vars : List VarState) (i : Nat)
    (f g : VarState → VarState) :
    updV (updV vars i f) i g = vars.set i (g (f (getV vars i))) := by
  by_cases hl : i < vars.length
  · unfold updV
    rw [getV_set_self vars i _ hl, List.set_set]
  · rw [updV_out vars i f hl, updV_out]
    · rw [List.set_eq_of_length_le (Nat.le_of_not_lt hl)]
    · exact hl

theorem updV_comm (vars : List VarState) (i j : Nat) (f g : VarState → VarState)
    (h : i ≠ j) : updV (updV vars i f) j g = updV (updV vars j g) i f := by
  unfold updV
  rw [getV_set_ne vars i j _ h, getV_set_ne vars j i _ (Ne.symm h),
    List.set_comm _ _ _ h]

/-- Generic pointwise preservation: an update whose function keeps a field
keeps that field of every variable. -/
theorem getV_updV_pres (vars : List VarState) (i j : Nat)
    (f : VarState → VarState) {α : Type} (field : VarState → α)
    (hf : ∀ s, field (f s) = field s) :
    field (getV (updV vars i f) j) = field (getV vars j) := by
  by_cases hij : i = j
  · subst hij
    by_cases hl : i < vars.length
    · rw [getV_updV_self vars i f hl, hf]
    · rw [updV_out vars i f hl]
  · rw [getV_updV_ne vars i j f hij]

theorem assign_dom (s : VarState) (v : Val) : (s.assign v).dom = s.dom := by
  unfold VarState.assign
  split <;> rfl

theorem assign_curdom (s : VarState) (v : Val) : (s.assign v).curdom = s.curdom := by
  unfold VarState.assign
  split <;> rfl

theorem unassign_dom (s : VarState) : s.unassign.dom = s.dom := by
  unfold VarState.unassign
  split <;> rfl

theorem unassign_curdom (s : VarState) : s.unassign.curdom = s.curdom := by
  unfold VarState.unassign
  split <;> rfl

theorem prune_dom (s : VarState) (v : Val) : (s.prune_value v).dom = s.dom := rfl

theorem prune_assignedValue (s : VarState) (v : Val) :
    (s.prune_value v).assignedValue = s.assignedValue := rfl

theorem unprune_dom (s : VarState) (v : Val) : (s.unprune_value v).dom = s.dom := rfl

theorem unprune_assignedValue (s : VarState) (v : Val) :
    (s.unprune_value v).assignedValue = s.assignedValue := rfl

theorem assign_success (s : VarState) (v : Val) (h1 : s.assignedValue = none)
    (h2 : s.in_cur_domain v = true) :
    s.assign v = { s with assignedValue := some v } := by
  unfold VarState.assign
  simp [VarState.is_assigned, h1, h2]

theorem unassign_assign (s : VarState) (v : Val) (h : s.assignedValue = none) :
    (s.assign v).unassign = s := by
  unfold VarState.assign
  by_cases hc : (s.is_assigned || !(s.in_cur_domain v)) = true
  · simp only [hc, if_true]
    unfold VarState.unassign
    simp [VarState.is_assigned, h]
  · simp only [hc, if_false]
    unfold VarState.unassign
    simp only [VarState.is_assigned, Option.isSome_some, Bool.not_true, if_false]
    cases s
    simp_all

/-- Reverting a successful trial assignment on the variable list. -/
theorem unassignVar_assignVar (vars : List VarState) (mv : Nat) (val : Val)
    (h : (getV vars mv).assignedValue = none) :
    unassignVar (assignVar vars mv val) mv = vars := by
  unfold unassignVar assignVar
  rw [updV_updV_same]
  rw [unassign_assign _ _ h, set_getV]

/-! ### Helper lemmas: pruning folds -/

theorem applyPrunings_cons (p : Nat × Val) (ps : List (Nat × Val))
    (vars : List VarState) :
    applyPrunings (p :: ps) vars = applyPrunings ps (pruneVar vars p.1 p.2) := rfl

theorem restoreValues_cons (p : Nat × Val) (ps : List (Nat × Val))
    (vars : List VarState) :
    restoreValues (p :: ps) vars = restoreValues ps (unpruneVar vars p.1 p.2) := rfl

theorem length_applyPrunings (ps : List (Nat × Val)) (vars : List VarState) :
    (applyPrunings ps vars).length = vars.length := by
  induction ps generalizing vars with
  | nil => rfl
  | cons p ps ih => rw [applyPrunings_cons, ih, pruneVar, length_updV]

theorem length_restoreValues (ps : List (Nat × Val)) (vars : List VarState) :
    (restoreValues ps vars).length = vars.length := by
  induction ps generalizing vars with
  | nil => rfl
  | cons p ps ih => rw [restoreValues_cons, ih, unpruneVar, length_updV]

theorem getV_applyPrunings_dom (ps : List (Nat × Val)) (vars : List VarState)
    (j : Nat) : (getV (applyPrunings ps vars) j).dom = (getV vars j).dom := by
  induction ps generalizing vars with
  | nil => rfl
  | cons p ps ih =>
      rw [applyPrunings_cons, ih, pruneVar]
      exact getV_updV_pres vars p.1 j _ VarState.dom (fun s => prune_dom s p.2)

theorem getV_applyPrunings_assignedValue (ps : List (Nat × Val))
    (vars : List VarState) (j : Nat) :
    (getV (applyPrunings ps vars) j).assignedValue = (getV vars j).assignedValue := by
  induction ps generalizing vars with
  | nil => rfl
  | cons p ps ih =>
      rw [applyPrunings_cons, ih, pruneVar]
      exact getV_updV_pres vars p.1 j _ VarState.assignedValue
        (fun s => prune_assignedValue s p.2)

theorem getV_restoreValues_dom (ps : List (Nat × Val)) (vars : List VarState)
    (j : Nat) : (getV (restoreValues ps vars) j).dom = (getV vars j).dom := by
  induction ps generalizing vars with
  | nil => rfl
  | cons p ps ih =>
      rw [restoreValues_cons, ih, unpruneVar]
      exact getV_updV_pres vars p.1 j _ VarState.dom (fun s => unprune_dom s p.2)

theorem getV_restoreValues_assignedValue (ps : List (Nat × Val))
    (vars : List VarState) (j : Nat) :
    (getV (restoreValues ps vars) j).assignedValue = (getV vars j).assignedValue := by
  induction ps generalizing vars with
  | nil => rfl
  | cons p ps ih =>
      rw [restoreValues_cons, ih, unpruneVar]
      exact getV_updV_pres vars p.1 j _ VarState.assignedValue
        (fun s => unprune_assignedValue s p.2)

/-- Single-step swap: unpruning one pair past pruning a different pair (or
the same variable at a different domain index) commutes. -/
theorem unpruneVar_pruneVar_swap (W : List VarState) (i a : Nat) (u b : Val)
    (h : i ≠ a ∨ (getV W i).dom.indexOf u ≠ (getV W a).dom.indexOf b) :
    unpruneVar (pruneVar W i u) a b = pruneVar (unpruneVar W a b) i u := by
  rcases h with h | h
  · exact updV_comm W i a _ _ h
  · by_cases hia : i = a
    · subst hia
      unfold unpruneVar pruneVar
      rw [updV_updV_same, updV_updV_same]
      congr 1
      unfold VarState.prune_value VarState.unprune_value VarState.value_index
      simp only
      rw [List.set_comm]
      simpa using h
    · exact updV_comm W i a _ _ hia

/-- Unpruning a pair commutes past applying a pruning list that never touches
the same (variable, domain-index) slot. -/
theorem unpruneVar_applyPrunings_comm (ps : List (Nat × Val)) :
    ∀ (W : List VarState) (a : Nat) (b : Val),
      (∀ q ∈ ps, q.1 ≠ a ∨ (getV W q.1).dom.indexOf q.2 ≠ (getV W a).dom.indexOf b) →
      unpruneVar (applyPrunings ps W) a b = applyPrunings ps (unpruneVar W a b) := by
  induction ps with
  | nil => intro W a b _; rfl
  | cons q ps ih =>
      intro W a b h
      rw [applyPrunings_cons, applyPrunings_cons]
      rw [ih (pruneVar W q.1 q.2) a b ?later]
      case later =>
        intro r hr
        rcases h r (List.mem_cons_of_mem q hr) with h' | h'
        · exact Or.inl h'
        · refine Or.inr ?_
          have d1 : (getV (pruneVar W q.1 q.2) r.1).dom = (getV W r.1).dom :=
            getV_updV_pres W q.1 r.1 _ VarState.dom (fun s => prune_dom s q.2)
          have d2 : (getV (pruneVar W q.1 q.2) a).dom = (getV W a).dom :=
            getV_updV_pres W q.1 a _ VarState.dom (fun s => prune_dom s q.2)
          rw [d1, d2]
          exact h'
      rw [unpruneVar_pruneVar_swap W q.1 a q.2 b (h q (List.mem_cons_self q ps))]

/-- Cancellation: pruning a pair whose flag is true and unpruning it restores
the original state. -/
theorem unpruneVar_pruneVar_cancel (vars : List VarState) (a : Nat) (b : Val)
    (h : (getV vars a).curdom.getD ((getV vars a).value_index b) false = true) :
    unpruneVar (pruneVar vars a b) a b = vars := by
  unfold unpruneVar pruneVar
  rw [updV_updV_same]
  have hvi : ((getV vars a).prune_value b).value_index b
      = (getV vars a).value_index b := rfl
  unfold VarState.unprune_value
  rw [hvi]
  have : ((getV vars a).prune_value b).curdom.set ((getV vars a).value_index b) true
      = (getV vars a).curdom := by
    unfold VarState.prune_value
    simp only
    rw [List.set_set]
    exact set_true_of_getD _ _ h
  rw [show ({ (getV vars a).prune_value b with
        curdom := ((getV vars a).prune_value b).curdom.set
          ((getV vars a).value_index b) true } : VarState)
      = { (getV vars a).prune_value b with curdom := (getV vars a).curdom } from by
    rw [this]]
  have heq : ({ (getV vars a).prune_value b with
      curdom := (getV vars a).curdom } : VarState) = getV vars a := by
    unfold VarState.prune_value
    cases getV vars a
    simp
  rw [heq, set_getV]

/-- The pruning list of a contract-honouring call is exactly reverted by
`restoreValues`: the state effect of a propagator call is undone. -/
theorem restoreValues_applyPrunings (ps : List (Nat × Val)) :
    ∀ (vars : List VarState), goodPrunings vars ps →
      restoreValues ps (applyPrunings ps vars) = vars := by
  induction ps with
  | nil => intro vars _; rfl
  | cons p ps ih =>
      intro vars h
      rcases h with ⟨hpair, hmem⟩
      rcases hmem p (List.mem_cons_self p ps) with ⟨hp1, hp2, hp3⟩
      rw [applyPrunings_cons, restoreValues_cons]
      have hcomm : unpruneVar (applyPrunings ps (pruneVar vars p.1 p.2)) p.1 p.2
          = applyPrunings ps (unpruneVar (pruneVar vars p.1 p.2) p.1 p.2) := by
        apply unpruneVar_applyPrunings_comm
        intro q hq
        by_cases hq1 : q.1 = p.1
        · refine Or.inr ?_
          rcases hmem q (List.mem_cons_of_mem p hq) with ⟨_, hq2, _⟩
          have hne : q ≠ p := Ne.symm (List.rel_of_pairwise_cons hpair hq)
          have hval : q.2 ≠ p.2 := fun hv2 => hne (Prod.ext hq1 hv2)
          have d1 : (getV (pruneVar vars p.1 p.2) q.1).dom = (getV vars q.1).dom :=
            getV_updV_pres vars p.1 q.1 _ VarState.dom (fun s => prune_dom s p.2)
          have d2 : (getV (pruneVar vars p.1 p.2) p.1).dom = (getV vars p.1).dom :=
            getV_updV_pres vars p.1 p.1 _ VarState.dom (fun s => prune_dom s p.2)
          rw [d1, d2, hq1]
          intro hidx
          exact hval ((List.indexOf_inj (hq1 ▸ hq2) hp2).mp hidx)
        · exact Or.inl hq1
      rw [hcomm, unpruneVar_pruneVar_cancel vars p.1 p.2 hp3]
      apply ih
      refine ⟨List.Pairwise.of_cons hpair, ?_⟩
      intro q hq
      exact hmem q (List.mem_cons_of_mem p hq)

/-! ### Helper lemmas: current-domain membership and assignment effects -/

/-- For an unassigned well-formed variable, membership in the `cur_domain`
list implies `in_cur_domain`. -/
theorem in_cur_of_mem_cur_domain (s : VarState) (val : Val)
    (hun : s.assignedValue = none) (hlen : s.curdom.length = s.dom.length)
    (hnd : s.dom.Nodup) (hmem : val ∈ s.cur_domain) :
    s.in_cur_domain val = true := by
  unfold VarState.cur_domain at hmem
  rw [hun] at hmem
  simp only [List.mem_filterMap] at hmem
  rcases hmem with ⟨p, hp, hpf⟩
  have hp2 : p.2 = true := by
    by_contra hb
    rw [Bool.not_eq_true] at hb
    rw [hb] at hpf
    simp at hpf
  rw [hp2] at hpf
  simp only [if_true] at hpf
  have hp1 : p.1 = val := by
    exact Option.some.inj hpf
  rcases List.mem_iff_getElem.mp hp with ⟨k, hk, hzk⟩
  have hklen : k < s.dom.length := by
    rw [List.length_zip] at hk
    exact Nat.lt_of_lt_of_le hk (Nat.min_le_left _ _)
  have hkc : k < s.curdom.length := by
    rw [hlen]
    exact hklen
  have hdk : s.dom[k] = val := by
    have := @List.getElem_zip _ _ s.dom s.curdom k hk
    rw [this] at hzk
    have := congrArg Prod.fst hzk
    simpa [hp1] using this
  have hck : s.curdom[k] = true := by
    have := @List.getElem_zip _ _ s.dom s.curdom k hk
    rw [this] at hzk
    have := congrArg Prod.snd hzk
    simpa [hp2] using this
  have hvmem : val ∈ s.dom := hdk ▸ List.getElem_mem hklen
  have hidx : List.indexOf val s.dom < s.dom.length := List.indexOf_lt_length.mpr hvmem
  have hidxk : List.indexOf val s.dom = k := by
    have hinj := @List.Nodup.getElem_inj_iff _ s.dom hnd (List.indexOf val s.dom) hidx k hklen
    apply hinj.mp
    rw [List.getElem_indexOf hidx, hdk]
  unfold VarState.in_cur_domain
  rw [if_pos hvmem, hun]
  unfold VarState.value_index
  show s.curdom.getD (List.indexOf val s.dom) false = true
  rw [hidxk, List.getD_eq_getElem?_getD, List.getElem?_eq_getElem hkc, Option.getD_some, hck]

theorem getV_assignVar_dom (vars : List VarState) (mv j : Nat) (val : Val) :
    (getV (assignVar vars mv val) j).dom = (getV vars j).dom :=
  getV_updV_pres vars mv j _ VarState.dom (fun s => assign_dom s val)

theorem getV_assignVar_curdom (vars : List VarState) (mv j : Nat) (val : Val) :
    (getV (assignVar vars mv val) j).curdom = (getV vars j).curdom :=
  getV_updV_pres vars mv j _ VarState.curdom (fun s => assign_curdom s val)

theorem getV_assignVar_ne (vars : List VarState) (mv j : Nat) (val : Val)
    (h : mv ≠ j) : getV (assignVar vars mv val) j = getV vars j :=
  getV_updV_ne vars mv j _ h

theorem getV_assignVar_self (vars : List VarState) (mv : Nat) (val : Val)
    (hlt : mv < vars.length) (hun : (getV vars mv).assignedValue = none)
    (hin : (getV vars mv).in_cur_domain val = true) :
    getV (assignVar vars mv val) mv
      = { getV vars mv with assignedValue := some val } := by
  rw [assignVar, getV_updV_self vars mv _ hlt, assign_success _ _ hun hin]

theorem length_assignVar (vars : List VarState) (mv : Nat) (val : Val) :
    (assignVar vars mv val).length = vars.length :=
  length_updV vars mv _

theorem length_unassignVar (vars : List VarState) (mv : Nat) :
    (unassignVar vars mv).length = vars.length :=
  length_updV vars mv _

/-- `DomInv` is stable under all search-state operations (they never change a
domain and never change a flag list's length). -/
theorem DomInv_assignVar (vars : List VarState) (mv : Nat) (val : Val)
    (h : DomInv vars) : DomInv (assignVar vars mv val) := by
  intro i hi
  rw [length_assignVar] at hi
  rcases h i hi with ⟨h1, h2⟩
  rw [getV_assignVar_dom, getV_assignVar_curdom]
  exact ⟨h1, h2⟩

theorem getV_pruneVar_curdom_length (vars : List VarState) (a j : Nat) (b : Val) :
    (getV (pruneVar vars a b) j).curdom.length = (getV vars j).curdom.length := by
  have := getV_updV_pres vars a j (fun s => s.prune_value b)
    (fun s => s.curdom.length) (fun s => by simp [VarState.prune_value])
  exact this

theorem getV_pruneVar_dom (vars : List VarState) (a j : Nat) (b : Val) :
    (getV (pruneVar vars a b) j).dom = (getV vars j).dom :=
  getV_updV_pres vars a j _ VarState.dom (fun s => prune_dom s b)

theorem DomInv_applyPrunings (ps : List (Nat × Val)) (vars : List VarState)
    (h : DomInv vars) : DomInv (applyPrunings ps vars) := by
  induction ps generalizing vars with
  | nil => exact h
  | cons p ps ih =>
      rw [applyPrunings_cons]
      apply ih
      intro i hi
      rw [pruneVar, length_updV] at hi
      rcases h i hi with ⟨h1, h2⟩
      constructor
      · rw [getV_pruneVar_curdom_length, getV_pruneVar_dom]
        exact h1
      · rw [getV_pruneVar_dom]
        exact h2

/-! ### Helper lemmas: search recursion -/

theorem not_assigned_iff_none (s : VarState) :
    s.is_assigned = false ↔ s.assignedValue = none := by
  unfold VarState.is_assigned
  cases s.assignedValue <;> simp

theorem is_assigned_congr (s t : VarState)
    (h : s.assignedValue = t.assignedValue) : s.is_assigned = t.is_assigned := by
  unfold VarState.is_assigned
  rw [h]

theorem bt_recurse_zero (prop : Propagator) (vars : List VarState)
    (unasgn : List Nat) : bt_recurse prop 0 vars unasgn = none := rfl

theorem bt_recurse_succ_nil (prop : Propagator) (fuel : Nat)
    (vars : List VarState) :
    bt_recurse prop (fuel + 1) vars [] = some (true, vars, []) := rfl

theorem bt_recurse_succ_cons (prop : Propagator) (fuel : Nat)
    (vars : List VarState) (v : Nat) (rest : List Nat) :
    bt_recurse prop (fuel + 1) vars (v :: rest) =
      tryVals prop (fun vs un => bt_recurse prop fuel vs un) (mrvPick vars v rest)
        (getV vars (mrvPick vars v rest)).cur_domain vars
        ((v :: rest).erase (mrvPick vars v rest)) := rfl

theorem tryVals_nil (prop : Propagator)
    (r : List VarState → List Nat → Option (Bool × List VarState × List Nat))
    (mv : Nat) (vars : List VarState) (unasgn : List Nat) :
    tryVals prop r mv [] vars unasgn = some (false, vars, unasgn ++ [mv]) := rfl

theorem tryVals_cons (prop : Propagator)
    (r : List VarState → List Nat → Option (Bool × List VarState × List Nat))
    (mv : Nat) (val : Val) (more : List Val) (vars : List VarState)
    (unasgn : List Nat) :
    tryVals prop r mv (val :: more) vars unasgn =
      (if (prop (assignVar vars mv val) (some mv)).1 then
        match r (applyPrunings (prop (assignVar vars mv val) (some mv)).2
            (assignVar vars mv val)) unasgn with
        | none => none
        | some (true, vars3, un3) => some (true, vars3, un3)
        | some (false, vars3, un3) =>
            tryVals prop r mv more
              (unassignVar (restoreValues (prop (assignVar vars mv val) (some mv)).2
                vars3) mv) un3
      else
        tryVals prop r mv more
          (unassignVar (restoreValues (prop (assignVar vars mv val) (some mv)).2
            (applyPrunings (prop (assignVar vars mv val) (some mv)).2
              (assignVar vars mv val))) mv) unasgn) := rfl

theorem tryVals_cons_ok_true (prop : Propagator)
    (r : List VarState → List Nat → Option (Bool × List VarState × List Nat))
    (mv : Nat) (val : Val) (more : List Val) (vars : List VarState)
    (unasgn : List Nat) (ps : List (Nat × Val)) (v3 : List VarState)
    (u3 : List Nat)
    (hres : prop (assignVar vars mv val) (some mv) = (true, ps))
    (hrec : r (applyPrunings ps (assignVar vars mv val)) unasgn = some (true, v3, u3)) :
    tryVals prop r mv (val :: more) vars unasgn = some (true, v3, u3) := by
  simp [tryVals, hres, hrec]

theorem tryVals_cons_ok_false (prop : Propagator)
    (r : List VarState → List Nat → Option (Bool × List VarState × List Nat))
    (mv : Nat) (val : Val) (more : List Val) (vars : List VarState)
    (unasgn : List Nat) (ps : List (Nat × Val)) (v3 : List VarState)
    (u3 : List Nat)
    (hres : prop (assignVar vars mv val) (some mv) = (true, ps))
    (hrec : r (applyPrunings ps (assignVar vars mv val)) unasgn = some (false, v3, u3)) :
    tryVals prop r mv (val :: more) vars unasgn
      = tryVals prop r mv more (unassignVar (restoreValues ps v3) mv) u3 := by
  simp [tryVals, hres, hrec]

theorem tryVals_cons_fail (prop : Propagator)
    (r : List VarState → List Nat → Option (Bool × List VarState × List Nat))
    (mv : Nat) (val : Val) (more : List Val) (vars : List VarState)
    (unasgn : List Nat) (ps : List (Nat × Val))
    (hres : prop (assignVar vars mv val) (some mv) = (false, ps)) :
    tryVals prop r mv (val :: more) vars unasgn
      = tryVals prop r mv more
          (unassignVar (restoreValues ps (applyPrunings ps (assignVar vars mv val))) mv)
          unasgn := by
  simp [tryVals, hres]

/-- Master induction for `bt_recurse` under the propagator contract: the
recursion always returns (given fuel above the unassigned count); a failing
search hands back the variable states exactly as received and a permutation
of the unassigned list; a successful search ends with no unassigned variable
and every variable assigned. -/
theorem bt_master (prop : Propagator) (hC : PropContract prop) :
    ∀ (fuel : Nat) (vars : List VarState) (unasgn : List Nat),
      DomInv vars → UnasgnInv vars unasgn → unasgn.length < fuel →
      ∃ st vars' un',
        bt_recurse prop fuel vars unasgn = some (st, vars', un') ∧
        (st = false → vars' = vars ∧ un'.Nodup ∧ un'.length = unasgn.length ∧
          (∀ i, i ∈ un' ↔ i ∈ unasgn)) ∧
        (st = true → un' = [] ∧ vars'.length = vars.length ∧
          ∀ i, i < vars'.length → (getV vars' i).is_assigned = true) := by
  intro fuel
  induction fuel with
  | zero =>
      intro vars unasgn _ _ hf
      exact absurd hf (Nat.not_lt_zero _)
  | succ fuel ihf =>
      intro vars unasgn hD hU hf
      cases unasgn with
      | nil =>
          refine ⟨true, vars, [], bt_recurse_succ_nil prop fuel vars, by simp, ?_⟩
          intro _
          refine ⟨rfl, rfl, ?_⟩
          intro i hi
          cases hb : (getV vars i).is_assigned with
          | false =>
              have hmem := (hU.2.2 i hi).mp hb
              simp at hmem
          | true => rfl
      | cons v rest =>
          have hspec := mrvFold_spec vars rest v
          have hmv_mem : mrvPick vars v rest ∈ v :: rest :=
            List.mem_of_find?_eq_some hspec.2.2
          set mv := mrvPick vars v rest with hmvdef
          rcases hU with ⟨hnd, hids, hiff⟩
          have hmv_lt : mv < vars.length := hids mv hmv_mem
          have hmv_un : (getV vars mv).is_assigned = false := (hiff mv hmv_lt).mpr hmv_mem
          have herase_len : ((v :: rest).erase mv).length = rest.length := by
            rw [List.length_erase_of_mem hmv_mem]
            rfl
          have hL : LoopInv vars ((v :: rest).erase mv) mv := by
            refine ⟨hnd.erase mv, ?_, hmv_lt, hmv_un, ?_, ?_⟩
            · intro hmem
              exact absurd (hnd.mem_erase_iff.mp hmem).1 (by simp)
            · intro i hi
              exact hids i (List.mem_of_mem_erase hi)
            · intro i hi
              rw [hiff i hi]
              constructor
              · intro hmem
                by_cases him : i = mv
                · exact Or.inr him
                · exact Or.inl (hnd.mem_erase_iff.mpr ⟨him, hmem⟩)
              · rintro (hmem | rfl)
                · exact List.mem_of_mem_erase hmem
                · exact hmv_mem
          have hvals : ∀ val ∈ (getV vars mv).cur_domain,
              (getV vars mv).in_cur_domain val = true := by
            intro val hval
            rcases hD mv hmv_lt with ⟨hlen, hndom⟩
            exact in_cur_of_mem_cur_domain _ val ((not_assigned_iff_none _).mp hmv_un)
              hlen hndom hval
          have hflen : ((v :: rest).erase mv).length < fuel := by
            rw [herase_len]
            exact Nat.lt_of_succ_lt_succ hf
          have loop : ∀ (vals : List Val) (vars2 : List VarState) (un2 : List Nat),
              DomInv vars2 → LoopInv vars2 un2 mv →
              (∀ val ∈ vals, (getV vars2 mv).in_cur_domain val = true) →
              un2.length < fuel →
              ∃ st vars' un',
                tryVals prop (fun vs un => bt_recurse prop fuel vs un) mv vals vars2 un2
                  = some (st, vars', un') ∧
                (st = false → vars' = vars2 ∧ un'.Nodup ∧
                  un'.length = un2.length + 1 ∧
                  (∀ i, i ∈ un' ↔ i ∈ un2 ∨ i = mv)) ∧
                (st = true → un' = [] ∧ vars'.length = vars2.length ∧
                  ∀ i, i < vars'.length → (getV vars' i).is_assigned = true) := by
            intro vals
            induction vals with
            | nil =>
                intro vars2 un2 _ hL2 _ _
                refine ⟨false, vars2, un2 ++ [mv], tryVals_nil .., ?_, by simp⟩
                intro _
                refine ⟨rfl, ?_, by simp, by intro i; simp⟩
                rw [List.nodup_append]
                refine ⟨hL2.1, List.nodup_singleton mv, ?_⟩
                intro a ha hmem
                simp only [List.mem_singleton] at hmem
                subst hmem
                exact hL2.2.1 ha
            | cons val more ihv =>
                intro vars2 un2 hD2 hL2 hvals2 hlen2
                obtain ⟨hnd2, hmv_nmem2, hmv_lt2, hmv_un2, hids2, hiff2⟩ := hL2
                have hin : (getV vars2 mv).in_cur_domain val = true :=
                  hvals2 val (List.mem_cons_self val more)
                have hmv_none2 : (getV vars2 mv).assignedValue = none :=
                  (not_assigned_iff_none _).mp hmv_un2
                rcases hres : prop (assignVar vars2 mv val) (some mv) with ⟨ok, ps⟩
                have hgood : goodPrunings (assignVar vars2 mv val) ps := by
                  have := hC (assignVar vars2 mv val) (some mv)
                  rw [hres] at this
                  exact this
                have hS1len : (assignVar vars2 mv val).length = vars2.length :=
                  length_assignVar ..
                have hS2len : (applyPrunings ps (assignVar vars2 mv val)).length
                    = vars2.length := by
                  rw [length_applyPrunings, hS1len]
                have hS1mv : getV (assignVar vars2 mv val) mv
                    = { getV vars2 mv with assignedValue := some val } :=
                  getV_assignVar_self vars2 mv val hmv_lt2 hmv_none2 hin
                have hD2' : DomInv (applyPrunings ps (assignVar vars2 mv val)) :=
                  DomInv_applyPrunings ps _ (DomInv_assignVar vars2 mv val hD2)
                have hU2' : UnasgnInv (applyPrunings ps (assignVar vars2 mv val)) un2 := by
                  refine ⟨hnd2, ?_, ?_⟩
                  · intro i hi
                    rw [hS2len]
                    exact hids2 i hi
                  · intro i hi
                    rw [hS2len] at hi
                    have hass : (getV (applyPrunings ps (assignVar vars2 mv val)) i).assignedValue
                        = (getV (assignVar vars2 mv val) i).assignedValue :=
                      getV_applyPrunings_assignedValue ps _ i
                    by_cases him : i = mv
                    · have hval2 : (getV (applyPrunings ps (assignVar vars2 mv val)) i).assignedValue
                          = some val := by
                        rw [hass, him, hS1mv]
                      have htrue : (getV (applyPrunings ps (assignVar vars2 mv val)) i).is_assigned
                          = true := by
                        unfold VarState.is_assigned
                        rw [hval2]
                        rfl
                      rw [htrue, him]
                      simp [hmv_nmem2]
                    · have hbase : (getV (assignVar vars2 mv val) i).assignedValue
                          = (getV vars2 i).assignedValue := by
                        rw [getV_assignVar_ne vars2 mv i val (Ne.symm him)]
                      rw [is_assigned_congr _ _ (hass.trans hbase), hiff2 i hi]
                      constructor
                      · rintro (hmem | rfl)
                        · exact hmem
                        · exact absurd rfl him
                      · exact Or.inl
                cases ok with
                | true =>
                    rcases ihf (applyPrunings ps (assignVar vars2 mv val)) un2 hD2' hU2' hlen2
                      with ⟨st4, vars4, un4, heq4, hfalse4, htrue4⟩
                    cases st4 with
                    | true =>
                        refine ⟨true, vars4, un4, ?_, by simp, ?_⟩
                        · exact tryVals_cons_ok_true prop _ mv val more vars2 un2 ps
                            vars4 un4 hres heq4
                        · intro _
                          rcases htrue4 rfl with ⟨h1, h2, h3⟩
                          exact ⟨h1, by rw [h2, hS2len], h3⟩
                    | false =>
                        rcases hfalse4 rfl with ⟨hv4, hnd4, hlen4, hmem4⟩
                        have hrestore : unassignVar (restoreValues ps vars4) mv = vars2 := by
                          rw [hv4, restoreValues_applyPrunings ps _ hgood,
                            unassignVar_assignVar vars2 mv val hmv_none2]
                        have hL4 : LoopInv vars2 un4 mv := by
                          refine ⟨hnd4, ?_, hmv_lt2, hmv_un2, ?_, ?_⟩
                          · intro hmem
                            exact hmv_nmem2 ((hmem4 mv).mp hmem)
                          · intro i hi
                            exact hids2 i ((hmem4 i).mp hi)
                          · intro i hi
                            rw [hiff2 i hi]
                            constructor
                            · rintro (hmem | rfl)
                              · exact Or.inl ((hmem4 i).mpr hmem)
                              · exact Or.inr rfl
                            · rintro (hmem | rfl)
                              · exact Or.inl ((hmem4 i).mp hmem)
                              · exact Or.inr rfl
                        have hlen4' : un4.length < fuel := by
                          rw [hlen4]
                          exact hlen2
                        rcases ihv vars2 un4 hD2 hL4
                          (fun w hw => hvals2 w (List.mem_cons_of_mem val hw)) hlen4'
                          with ⟨st5, vars5, un5, heq5, hfalse5, htrue5⟩
                        refine ⟨st5, vars5, un5, ?_, ?_, htrue5⟩
                        · rw [tryVals_cons_ok_false prop _ mv val more vars2 un2 ps
                            vars4 un4 hres heq4, hrestore]
                          exact heq5
                        · intro hst
                          rcases hfalse5 hst with ⟨h1, h2, h3, h4⟩
                          refine ⟨h1, h2, ?_, ?_⟩
                          · rw [h3, hlen4]
                          · intro i
                            rw [h4 i]
                            constructor
                            · rintro (hmem | rfl)
                              · exact Or.inl ((hmem4 i).mp hmem)
                              · exact Or.inr rfl
                            · rintro (hmem | rfl)
                              · exact Or.inl ((hmem4 i).mpr hmem)
                              · exact Or.inr rfl
                | false =>
                    have hrestore : unassignVar
                        (restoreValues ps (applyPrunings ps (assignVar vars2 mv val))) mv
                        = vars2 := by
                      rw [restoreValues_applyPrunings ps _ hgood,
                        unassignVar_assignVar vars2 mv val hmv_none2]
                    rcases ihv vars2 un2 hD2
                      ⟨hnd2, hmv_nmem2, hmv_lt2, hmv_un2, hids2, hiff2⟩
                      (fun w hw => hvals2 w (List.mem_cons_of_mem val hw)) hlen2
                      with ⟨st5, vars5, un5, heq5, hfalse5, htrue5⟩
                    refine ⟨st5, vars5, un5, ?_, hfalse5, htrue5⟩
                    rw [tryVals_cons_fail prop _ mv val more vars2 un2 ps hres, hrestore]
                    exact heq5
          rcases loop (getV vars mv).cur_domain vars ((v :: rest).erase mv) hD hL hvals hflen
            with ⟨st, vars', un', heq, hfalse, htrue⟩
          refine ⟨st, vars', un', ?_, ?_, htrue⟩
          · rw [bt_recurse_succ_cons]
            exact heq
          · intro hst
            rcases hfalse hst with ⟨hv', hnd', hlen', hmem'⟩
            refine ⟨hv', hnd', ?_, ?_⟩
            · rw [hlen', herase_len]
              rfl
            · intro i
              rw [hmem' i]
              constructor
              · rintro (hmem | rfl)
                · exact List.mem_of_mem_erase hmem
                · exact hmv_mem
              · intro hmem
                by_cases him : i = mv
                · exact Or.inr him
                · exact Or.inl (hnd.mem_erase_iff.mpr ⟨him, hmem⟩)

/-! ### Helper lemmas: bt_search -/

theorem length_restore_all (vars : List VarState) :
    (restore_all vars).length = vars.length := by
  simp [restore_all]

theorem getV_restore_all (vars : List VarState) (i : Nat) (h : i < vars.length) :
    getV (restore_all vars) i
      = ((if (getV vars i).is_assigned then (getV vars i).unassign
          else (getV vars i)).restore_curdom) := by
  unfold restore_all getV
  rw [List.getD_eq_getElem?_getD, List.getD_eq_getElem?_getD, List.getElem?_map]
  rw [List.getElem?_eq_getElem h]
  rfl

theorem getV_restore_all_assignedValue (vars : List VarState) (i : Nat)
    (h : i < vars.length) : (getV (restore_all vars) i).assignedValue = none := by
  rw [getV_restore_all vars i h]
  by_cases ha : (getV vars i).is_assigned
  · simp [VarState.restore_curdom, VarState.unassign, ha]
  · rw [Bool.not_eq_true] at ha
    simp [VarState.restore_curdom, ha, (not_assigned_iff_none _).mp ha]

theorem getV_restore_all_dom (vars : List VarState) (i : Nat)
    (h : i < vars.length) : (getV (restore_all vars) i).dom = (getV vars i).dom := by
  rw [getV_restore_all vars i h]
  unfold VarState.restore_curdom
  simp only
  by_cases ha : (getV vars i).is_assigned
  · rw [if_pos ha, unassign_dom]
  · rw [if_neg ha]

theorem getV_restore_all_curdom (vars : List VarState) (i : Nat)
    (h : i < vars.length) :
    (getV (restore_all vars) i).curdom
      = (getV vars i).curdom.map (fun _ => true) := by
  rw [getV_restore_all vars i h]
  unfold VarState.restore_curdom
  simp only
  by_cases ha : (getV vars i).is_assigned
  · rw [if_pos ha, unassign_curdom]
  · rw [if_neg ha]

theorem DomInv_restore_all (vars : List VarState) (h : DomInv vars) :
    DomInv (restore_all vars) := by
  intro i hi
  rw [length_restore_all] at hi
  rcases h i hi with ⟨h1, h2⟩
  rw [getV_restore_all_dom vars i hi, getV_restore_all_curdom vars i hi]
  constructor
  · rw [List.length_map]
    exact h1
  · exact h2

theorem UnasgnInv_initUnasgn (vars : List VarState) :
    UnasgnInv vars (initUnasgn vars) := by
  refine ⟨?_, ?_, ?_⟩
  · exact (List.nodup_range _).filter _
  · intro i hi
    unfold initUnasgn at hi
    have := List.mem_of_mem_filter hi
    exact List.mem_range.mp this
  · intro i hi
    unfold initUnasgn
    rw [List.mem_filter, List.mem_range]
    constructor
    · intro h
      exact ⟨hi, by simp [h]⟩
    · intro h
      have := h.2
      simp only [Bool.not_eq_true'] at this
      simpa using this

theorem length_initUnasgn_le (vars : List VarState) :
    (initUnasgn vars).length ≤ vars.length := by
  unfold initUnasgn
  calc ((List.range vars.length).filter _).length
      ≤ (List.range vars.length).length := List.length_filter_le _ _
    _ = vars.length := List.length_range _

theorem cur_domain_eq_dom_of_all_true (s : VarState) (hun : s.assignedValue = none)
    (hcd : s.curdom = List.replicate s.dom.length true) : s.cur_domain = s.dom := by
  unfold VarState.cur_domain
  rw [hun, hcd]
  exact filterMap_zip_all_true s.dom

theorem bt_search_root_fail (prop : Propagator) (vars : List VarState)
    (ps : List (Nat × Val))
    (hres : prop (restore_all vars) none = (false, ps)) :
    bt_search prop vars
      = some (false, restoreValues ps (applyPrunings ps (restore_all vars))) := by
  simp [bt_search, hres]

theorem bt_search_root_ok (prop : Propagator) (vars : List VarState)
    (ps : List (Nat × Val)) (st : Bool) (v2 : List VarState) (u2 : List Nat)
    (hres : prop (restore_all vars) none = (true, ps))
    (hrec : bt_recurse prop ((restore_all vars).length + 1)
        (applyPrunings ps (restore_all vars)) (initUnasgn (restore_all vars))
      = some (st, v2, u2)) :
    bt_search prop vars = some (st, restoreValues ps v2) := by
  simp [bt_search, hres, hrec]

/-! ### C2: failure of bt_search restores everything -/

/-- C2: for a propagator honouring the documented contract, if `bt_search`
reports failure, then afterwards every variable of the CSP is unassigned and
its current domain equals its full (unchanged) permanent domain — no
speculative pruning or assignment survives. -/
theorem c2_bt_search_failure (prop : Propagator) (vars vars' : List VarState)
    (hC : PropContract prop) (hD : DomInv vars)
    (h : bt_search prop vars = some (false, vars')) :
    vars'.length = vars.length ∧
    ∀ i, i < vars'.length →
      (getV vars' i).assignedValue = none ∧
      (getV vars' i).dom = (getV vars i).dom ∧
      (getV vars' i).cur_domain = (getV vars' i).dom := by
  have hD0 : DomInv (restore_all vars) := DomInv_restore_all vars hD
  have hU0 : UnasgnInv (restore_all vars) (initUnasgn (restore_all vars)) :=
    UnasgnInv_initUnasgn (restore_all vars)
  have hprops : ∀ i, i < (restore_all vars).length →
      (getV (restore_all vars) i).assignedValue = none ∧
      (getV (restore_all vars) i).dom = (getV vars i).dom ∧
      (getV (restore_all vars) i).cur_domain = (getV (restore_all vars) i).dom := by
    intro i hi
    rw [length_restore_all] at hi
    refine ⟨getV_restore_all_assignedValue vars i hi, getV_restore_all_dom vars i hi, ?_⟩
    apply cur_domain_eq_dom_of_all_true
    · exact getV_restore_all_assignedValue vars i hi
    · rw [getV_restore_all_curdom vars i hi, List.map_const',
        getV_restore_all_dom vars i hi]
      rcases hD i hi with ⟨h1, _⟩
      rw [h1]
  rcases hres0 : prop (restore_all vars) none with ⟨ok0, ps0⟩
  have hgood0 : goodPrunings (restore_all vars) ps0 := by
    have := hC (restore_all vars) none
    rw [hres0] at this
    exact this
  cases ok0 with
  | false =>
      have heq := bt_search_root_fail prop vars ps0 hres0
      rw [restoreValues_applyPrunings ps0 (restore_all vars) hgood0] at heq
      rw [heq] at h
      have hv : vars' = restore_all vars := by
        injection h with h'
        injection h' with _ h2
        exact h2.symm
      subst hv
      refine ⟨length_restore_all vars, ?_⟩
      intro i hi
      exact hprops i hi
  | true =>
      have hfuel : (initUnasgn (restore_all vars)).length
          < (restore_all vars).length + 1 :=
        Nat.lt_succ_of_le (length_initUnasgn_le _)
      have hUp : UnasgnInv (applyPrunings ps0 (restore_all vars))
          (initUnasgn (restore_all vars)) := by
        rcases hU0 with ⟨hnd0, hids0, hiff0⟩
        refine ⟨hnd0, ?_, ?_⟩
        · intro i hi
          rw [length_applyPrunings]
          exact hids0 i hi
        · intro i hi
          rw [length_applyPrunings] at hi
          rw [is_assigned_congr _ _ (getV_applyPrunings_assignedValue ps0 _ i)]
          exact hiff0 i hi
      rcases bt_master prop hC ((restore_all vars).length + 1)
          (applyPrunings ps0 (restore_all vars)) (initUnasgn (restore_all vars))
          (DomInv_applyPrunings ps0 _ hD0) hUp hfuel
        with ⟨st, v2, u2, heq, hfalse, _⟩
      have hsearch := bt_search_root_ok prop vars ps0 st v2 u2 hres0 heq
      rw [hsearch] at h
      have hpair := Option.some.inj h
      have hst : st = false := congrArg Prod.fst hpair
      have hv2 : v2 = applyPrunings ps0 (restore_all vars) := (hfalse hst).1
      have hv : vars' = restoreValues ps0 v2 := (congrArg Prod.snd hpair).symm
      rw [hv2, restoreValues_applyPrunings ps0 (restore_all vars) hgood0] at hv
      subst hv
      refine ⟨length_restore_all vars, ?_⟩
      intro i hi
      exact hprops i hi

/-- C2 witness: the always-failing propagator (which honours the contract,
pruning nothing) on two fresh 0/1 variables: the search fails at the root and
afterwards both variables are unassigned with full current domains. -/
theorem c2_bt_search_failure_witness :
    (c2vars.length = c2vars.length) ∧
    ∀ i, i < c2vars.length →
      (getV c2vars i).assignedValue = none ∧
      (getV c2vars i).dom = (getV c2vars i).dom ∧
      (getV c2vars i).cur_domain = (getV c2vars i).dom :=
  c2_bt_search_failure failProp c2vars c2vars
    (fun vars ov => ⟨List.Pairwise.nil, fun p hp => absurd hp (List.not_mem_nil p)⟩)
    (by unfold DomInv; decide) (by decide)

/-! ### C8: success of bt_recurse -/

/-- C8: (i) under the propagator contract and the search bookkeeping
invariants, `bt_recurse` returns success only with an empty unassigned list
and every variable of the CSP assigned — the assignment stack is the
solution; (ii) when the recursive call after a trial assignment succeeds,
success propagates upward immediately: the value loop returns the recursive
result verbatim — no further value of the current variable is tried, this
level's prunings are not restored and no variable is unassigned. -/
theorem c8_bt_recurse_success (prop : Propagator) (hC : PropContract prop) :
    (∀ (fuel : Nat) (vars : List VarState) (unasgn : List Nat)
        (vars' : List VarState) (un' : List Nat),
      DomInv vars → UnasgnInv vars unasgn → unasgn.length < fuel →
      bt_recurse prop fuel vars unasgn = some (true, vars', un') →
      un' = [] ∧ ∀ i, i < vars'.length → (getV vars' i).is_assigned = true) ∧
    (∀ (r : List VarState → List Nat → Option (Bool × List VarState × List Nat))
        (mv : Nat) (val : Val) (more : List Val) (vars : List VarState)
        (unasgn : List Nat) (ps : List (Nat × Val)) (vars3 : List VarState)
        (un3 : List Nat),
      prop (assignVar vars mv val) (some mv) = (true, ps) →
      r (applyPrunings ps (assignVar vars mv val)) unasgn = some (true, vars3, un3) →
      tryVals prop r mv (val :: more) vars unasgn = some (true, vars3, un3)) := by
  constructor
  · intro fuel vars unasgn vars' un' hD hU hf heq
    rcases bt_master prop hC fuel vars unasgn hD hU hf
      with ⟨st, v2, u2, heq2, _, htrue⟩
    rw [heq2] at heq
    have hpair := Option.some.inj heq
    have hst : st = true := congrArg (fun q => q.1) hpair
    have hv2 : v2 = vars' := congrArg (fun q => q.2.1) hpair
    have hu2 : u2 = un' := congrArg (fun q => q.2.2) hpair
    rcases htrue hst with ⟨h1, _, h3⟩
    subst hv2
    subst hu2
    exact ⟨h1, h3⟩
  · intro r mv val more vars unasgn ps vars3 un3 hres hrec
    exact tryVals_cons_ok_true prop r mv val more vars unasgn ps vars3 un3 hres hrec

/-- C8 witness: both parts at a concrete instance — a single variable with
domain {0} under the always-accepting, never-pruning propagator: the search
succeeds, ends with an empty unassigned list and the variable assigned, and
the value loop hands the successful recursive result through verbatim. -/
theorem c8_bt_recurse_success_witness :
    (([] : List Nat) = [] ∧
      ∀ i, i < ([⟨[0], [true], some 0⟩] : List VarState).length →
        (getV [⟨[0], [true], some 0⟩] i).is_assigned = true) ∧
    tryVals idProp (fun vs un => bt_recurse idProp 1 vs un) 0 [0] c8vars []
      = some (true, [⟨[0], [true], some 0⟩], []) := by
  have hC : PropContract idProp :=
    fun vars ov => ⟨List.Pairwise.nil, fun p hp => absurd hp (List.not_mem_nil p)⟩
  constructor
  · exact (c8_bt_recurse_success idProp hC).1 2 c8vars [0]
      [⟨[0], [true], some 0⟩] [] (by unfold DomInv; decide)
      (by unfold UnasgnInv; decide) (by decide) (by decide)
  · exact (c8_bt_recurse_success idProp hC).2
      (fun vs un => bt_recurse idProp 1 vs un) 0 0 [] c8vars [] []
      [⟨[0], [true], some 0⟩] [] (by decide) (by decide)

/-! ### Helper lemmas: counting and the MS recursion -/

theorem length_filter_le_of_imp {α : Type} (l : List α) (p q : α → Bool)
    (h : ∀ a ∈ l, p a = true → q a = true) :
    (l.filter p).length ≤ (l.filter q).length := by
  induction l with
  | nil => exact Nat.le_refl _
  | cons a as ih =>
      have ih' := ih (fun b hb => h b (List.mem_cons_of_mem a hb))
      by_cases hp : p a = true
      · rw [List.filter_cons_of_pos hp,
          List.filter_cons_of_pos (h a (List.mem_cons_self a as) hp)]
        simpa using ih'
      · rw [List.filter_cons_of_neg (by simpa using hp)]
        by_cases hq : q a = true
        · rw [List.filter_cons_of_pos hq]
          exact Nat.le_trans ih' (by simp)
        · rw [List.filter_cons_of_neg (by simpa using hq)]
          exact ih'

theorem length_filter_or_le {α : Type} (l : List α) (p q : α → Bool) :
    (l.filter (fun a => p a || q a)).length
      ≤ (l.filter p).length + (l.filter q).length := by
  induction l with
  | nil => exact Nat.le_refl _
  | cons a as ih =>
      by_cases hp : p a = true
      · have hq' : (as.filter q).length ≤ ((a :: as).filter q).length := by
          by_cases hqa : q a = true
          · rw [List.filter_cons_of_pos hqa]
            simp
          · rw [List.filter_cons_of_neg (by simpa using hqa)]
        rw [List.filter_cons_of_pos (by simp [hp]), List.filter_cons_of_pos hp]
        simp only [List.length_cons]
        omega
      · by_cases hq : q a = true
        · rw [List.filter_cons_of_pos (by simp [hq]),
            List.filter_cons_of_neg (by simpa using hp),
            List.filter_cons_of_pos hq]
          simp only [List.length_cons]
          omega
        · rw [List.filter_cons_of_neg (by simp [hp, hq]),
            List.filter_cons_of_neg (by simpa using hp),
            List.filter_cons_of_neg (by simpa using hq)]
          exact ih

theorem length_filter_eq_mv_le_one (n mv : Nat) :
    ((List.range n).filter (fun i => i == mv)).length ≤ 1 := by
  have hnd : ((List.range n).filter (fun i => i == mv)).Nodup :=
    (List.nodup_range n).filter _
  cases hf : (List.range n).filter (fun i => i == mv) with
  | nil => simp
  | cons a as =>
      cases as with
      | nil => simp
      | cons b bs =>
          exfalso
          have ha : a == mv := by
            have : a ∈ (List.range n).filter (fun i => i == mv) := by
              rw [hf]
              exact List.mem_cons_self a _
            exact (List.mem_filter.mp this).2
          have hb : b == mv := by
            have : b ∈ (List.range n).filter (fun i => i == mv) := by
              rw [hf]
              exact List.mem_cons_of_mem a (List.mem_cons_self b bs)
            exact (List.mem_filter.mp this).2
          have hab : a = b := by
            have h1 : a = mv := by simpa using ha
            have h2 : b = mv := by simpa using hb
            rw [h1, h2]
          rw [hf] at hnd
          have hna : a ∉ b :: bs := (List.nodup_cons.mp hnd).1
          exact hna (by rw [hab]; exact List.mem_cons_self b bs)

theorem countNewly_self (vars : List VarState) :
    countNewlyAssigned vars vars = 0 := by
  unfold countNewlyAssigned
  rw [List.length_eq_zero]
  apply List.filter_eq_nil_iff.mpr
  intro a _
  simp

theorem countNewly_le_one_add (pre mid post : List VarState) (mv : Nat)
    (hagree : ∀ i, i ≠ mv → (getV mid i).is_assigned = (getV pre i).is_assigned) :
    countNewlyAssigned pre post ≤ 1 + countNewlyAssigned mid post := by
  unfold countNewlyAssigned
  have step1 : ((List.range post.length).filter
        (fun i => (getV post i).is_assigned && !(getV pre i).is_assigned)).length
      ≤ ((List.range post.length).filter
        (fun i => ((getV post i).is_assigned && !(getV mid i).is_assigned)
          || (i == mv))).length := by
    apply length_filter_le_of_imp
    intro a _ hp
    by_cases ham : a = mv
    · simp [ham]
    · rw [Bool.or_eq_true]
      refine Or.inl ?_
      rw [Bool.and_eq_true] at hp ⊢
      exact ⟨hp.1, by rw [hagree a ham]; exact hp.2⟩
  have step2 := length_filter_or_le (List.range post.length)
    (fun i => (getV post i).is_assigned && !(getV mid i).is_assigned)
    (fun i => i == mv)
  have step3 := length_filter_eq_mv_le_one post.length mv
  omega

/-- Scope indices of every constraint are in range of the variable list. -/
def ScopeBound (cons : List Constraint) (n : Nat) : Prop :=
  ∀ c ∈ cons, ∀ i ∈ c.scope, i < n

theorem extractMRVvar_MS_props (cons : List Constraint) (vars : List VarState)
    (unasgn : List Nat) (mv : Nat) (rl : List Nat)
    (hU : UnasgnInv vars unasgn) (hs : ScopeBound cons vars.length)
    (h : extractMRVvar_MS cons vars unasgn = some (mv, rl)) :
    rl = unasgn.erase mv ∧ mv ∈ unasgn ∧ mv < vars.length ∧
    (getV vars mv).is_assigned = false := by
  unfold extractMRVvar_MS at h
  cases hf1 : unasgn.find? (fun i => (getV vars i).cur_domain_size == 1) with
  | some v =>
      simp only [hf1, Option.some.injEq, Prod.mk.injEq] at h
      obtain ⟨hmv, hrl⟩ := h
      have hmem : v ∈ unasgn := List.mem_of_find?_eq_some hf1
      have hlt : v < vars.length := hU.2.1 v hmem
      have huna := (hU.2.2 v hlt).mpr hmem
      exact ⟨by rw [← hrl, hmv], hmv ▸ hmem, hmv ▸ hlt, hmv ▸ huna⟩
  | none =>
      simp only [hf1] at h
      cases hf2 : cons.find? (fun c => c.get_n_unasgn vars == 1) with
      | none =>
          simp only [hf2] at h
          cases h
      | some c0 =>
          simp only [hf2] at h
          cases hfil : c0.get_unasgn_vars vars with
          | nil =>
              rw [hfil] at h
              cases h
          | cons mv0 tl =>
              rw [hfil] at h
              simp only [Option.some.injEq, Prod.mk.injEq] at h
              obtain ⟨hmv, hrl⟩ := h
              have hmem0 : mv0 ∈ c0.get_unasgn_vars vars := by
                rw [hfil]
                exact List.mem_cons_self mv0 tl
              rw [Constraint.get_unasgn_vars, List.mem_filter] at hmem0
              have hc0 : c0 ∈ cons := List.mem_of_find?_eq_some hf2
              have hlt : mv0 < vars.length := hs c0 hc0 mv0 hmem0.1
              have huna : (getV vars mv0).is_assigned = false := by
                simpa using hmem0.2
              have hmem : mv0 ∈ unasgn := (hU.2.2 mv0 hlt).mp huna
              exact ⟨by rw [← hrl, hmv], hmv ▸ hmem, hmv ▸ hlt, hmv ▸ huna⟩

theorem bt_recurse_MS_zero (prop : Propagator) (cons : List Constraint)
    (nDec : Nat) (vars : List VarState) (unasgn : List Nat) :
    bt_recurse_MS prop cons 0 nDec vars unasgn = none := rfl

theorem bt_recurse_MS_succ_nil (prop : Propagator) (cons : List Constraint)
    (fuel nDec : Nat) (vars : List VarState) :
    bt_recurse_MS prop cons (fuel + 1) nDec vars [] = some (true, nDec, vars, []) := rfl

theorem bt_recurse_MS_succ_none (prop : Propagator) (cons : List Constraint)
    (fuel nDec : Nat) (vars : List VarState) (v : Nat) (rest : List Nat)
    (hext : extractMRVvar_MS cons vars (v :: rest) = none) :
    bt_recurse_MS prop cons (fuel + 1) nDec vars (v :: rest)
      = some (true, nDec, vars, v :: rest) := by
  simp [bt_recurse_MS, hext]

theorem bt_recurse_MS_succ_some (prop : Propagator) (cons : List Constraint)
    (fuel nDec : Nat) (vars : List VarState) (v : Nat) (rest : List Nat)
    (mv : Nat) (rl : List Nat)
    (hext : extractMRVvar_MS cons vars (v :: rest) = some (mv, rl)) :
    bt_recurse_MS prop cons (fuel + 1) nDec vars (v :: rest)
      = tryVals_MS prop (fun n vs un => bt_recurse_MS prop cons fuel n vs un) mv
          (getV vars mv).cur_domain nDec vars rl := by
  simp [bt_recurse_MS, hext]

theorem tryVals_MS_nil (prop : Propagator)
    (r : Nat → List VarState → List Nat → Option (Bool × Nat × List VarState × List Nat))
    (mv nDec : Nat) (vars : List VarState) (unasgn : List Nat) :
    tryVals_MS prop r mv [] nDec vars unasgn
      = some (false, nDec, vars, unasgn ++ [mv]) := rfl

theorem tryVals_MS_cons_ok_true (prop : Propagator)
    (r : Nat → List VarState → List Nat → Option (Bool × Nat × List VarState × List Nat))
    (mv : Nat) (val : Val) (more : List Val) (nDec : Nat) (vars : List VarState)
    (unasgn : List Nat) (ps : List (Nat × Val)) (n3 : Nat) (v3 : List VarState)
    (u3 : List Nat)
    (hres : prop (assignVar vars mv val) (some mv) = (true, ps))
    (hrec : r (nDec + 1) (applyPrunings ps (assignVar vars mv val)) unasgn
      = some (true, n3, v3, u3)) :
    tryVals_MS prop r mv (val :: more) nDec vars unasgn = some (true, n3, v3, u3) := by
  simp [tryVals_MS, hres, hrec]

theorem tryVals_MS_cons_ok_false (prop : Propagator)
    (r : Nat → List VarState → List Nat → Option (Bool × Nat × List VarState × List Nat))
    (mv : Nat) (val : Val) (more : List Val) (nDec : Nat) (vars : List VarState)
    (unasgn : List Nat) (ps : List (Nat × Val)) (n3 : Nat) (v3 : List VarState)
    (u3 : List Nat)
    (hres : prop (assignVar vars mv val) (some mv) = (true, ps))
    (hrec : r (nDec + 1) (applyPrunings ps (assignVar vars mv val)) unasgn
      = some (false, n3, v3, u3)) :
    tryVals_MS prop r mv (val :: more) nDec vars unasgn
      = tryVals_MS prop r mv more n3 (unassignVar (restoreValues ps v3) mv) u3 := by
  simp [tryVals_MS, hres, hrec]

theorem tryVals_MS_cons_fail (prop : Propagator)
    (r : Nat → List VarState → List Nat → Option (Bool × Nat × List VarState × List Nat))
    (mv : Nat) (val : Val) (more : List Val) (nDec : Nat) (vars : List VarState)
    (unasgn : List Nat) (ps : List (Nat × Val))
    (hres : prop (assignVar vars mv val) (some mv) = (false, ps)) :
    tryVals_MS prop r mv (val :: more) nDec vars unasgn
      = tryVals_MS prop r mv more (nDec + 1)
          (unassignVar (restoreValues ps (applyPrunings ps (assignVar vars mv val))) mv)
          unasgn := by
  simp [tryVals_MS, hres]

/-- Master induction for `bt_recurse_MS` under the propagator contract: the
decision counter only grows, and it grows by at least the number of variables
newly left assigned; a failing search restores the variable states exactly. -/
theorem bt_MS_master (prop : Propagator) (cons : List Constraint)
    (hC : PropContract prop) :
    ∀ (fuel nDec : Nat) (vars : List VarState) (unasgn : List Nat),
      DomInv vars → UnasgnInv vars unasgn → ScopeBound cons vars.length →
      unasgn.length < fuel →
      ∃ st nDec' vars' un',
        bt_recurse_MS prop cons fuel nDec vars unasgn = some (st, nDec', vars', un') ∧
        nDec ≤ nDec' ∧ vars'.length = vars.length ∧
        nDec + countNewlyAssigned vars vars' ≤ nDec' ∧
        (st = false → vars' = vars ∧ un'.Nodup ∧ un'.length = unasgn.length ∧
          (∀ i, i ∈ un' ↔ i ∈ unasgn)) := by
  intro fuel
  induction fuel with
  | zero =>
      intro nDec vars unasgn _ _ _ hf
      exact absurd hf (Nat.not_lt_zero _)
  | succ fuel ihf =>
      intro nDec vars unasgn hD hU hs hf
      cases unasgn with
      | nil =>
          exact ⟨true, nDec, vars, [], bt_recurse_MS_succ_nil prop cons fuel nDec vars,
            Nat.le_refl _, rfl, by rw [countNewly_self]; omega, by simp⟩
      | cons v rest =>
          cases hext : extractMRVvar_MS cons vars (v :: rest) with
          | none =>
              exact ⟨true, nDec, vars, v :: rest,
                bt_recurse_MS_succ_none prop cons fuel nDec vars v rest hext,
                Nat.le_refl _, rfl, by rw [countNewly_self]; omega, by simp⟩
          | some p =>
              rcases p with ⟨mv, rl⟩
              rcases extractMRVvar_MS_props cons vars (v :: rest) mv rl hU hs hext
                with ⟨hrl, hmv_mem, hmv_lt, hmv_un⟩
              rcases hU with ⟨hnd, hids, hiff⟩
              have herase_len : ((v :: rest).erase mv).length = rest.length := by
                rw [List.length_erase_of_mem hmv_mem]
                rfl
              have hL : LoopInv vars ((v :: rest).erase mv) mv := by
                refine ⟨hnd.erase mv, ?_, hmv_lt, hmv_un, ?_, ?_⟩
                · intro hmem
                  exact absurd (hnd.mem_erase_iff.mp hmem).1 (by simp)
                · intro i hi
                  exact hids i (List.mem_of_mem_erase hi)
                · intro i hi
                  rw [hiff i hi]
                  constructor
                  · intro hmem
                    by_cases him : i = mv
                    · exact Or.inr him
                    · exact Or.inl (hnd.mem_erase_iff.mpr ⟨him, hmem⟩)
                  · rintro (hmem | rfl)
                    · exact List.mem_of_mem_erase hmem
                    · exact hmv_mem
              have hvals : ∀ val ∈ (getV vars mv).cur_domain,
                  (getV vars mv).in_cur_domain val = true := by
                intro val hval
                rcases hD mv hmv_lt with ⟨hlen, hndom⟩
                exact in_cur_of_mem_cur_domain _ val ((not_assigned_iff_none _).mp hmv_un)
                  hlen hndom hval
              have hflen : ((v :: rest).erase mv).length < fuel := by
                rw [herase_len]
                exact Nat.lt_of_succ_lt_succ hf
              have loop : ∀ (vals : List Val) (nDec0 : Nat) (vars2 : List VarState)
                  (un2 : List Nat),
                  DomInv vars2 → LoopInv vars2 un2 mv → ScopeBound cons vars2.length →
                  (∀ val ∈ vals, (getV vars2 mv).in_cur_domain val = true) →
                  un2.length < fuel →
                  ∃ st nDec' vars' un',
                    tryVals_MS prop (fun n vs un => bt_recurse_MS prop cons fuel n vs un)
                        mv vals nDec0 vars2 un2 = some (st, nDec', vars', un') ∧
                    nDec0 ≤ nDec' ∧ vars'.length = vars2.length ∧
                    nDec0 + countNewlyAssigned vars2 vars' ≤ nDec' ∧
                    (st = false → vars' = vars2 ∧ un'.Nodup ∧
                      un'.length = un2.length + 1 ∧
                      (∀ i, i ∈ un' ↔ i ∈ un2 ∨ i = mv)) := by
                intro vals
                induction vals with
                | nil =>
                    intro nDec0 vars2 un2 _ hL2 _ _ _
                    refine ⟨false, nDec0, vars2, un2 ++ [mv], tryVals_MS_nil .., Nat.le_refl _,
                      rfl, by rw [countNewly_self]; omega, ?_⟩
                    intro _
                    refine ⟨rfl, ?_, by simp, by intro i; simp⟩
                    rw [List.nodup_append]
                    refine ⟨hL2.1, List.nodup_singleton mv, ?_⟩
                    intro a ha hmem
                    simp only [List.mem_singleton] at hmem
                    subst hmem
                    exact hL2.2.1 ha
                | cons val more ihv =>
                    intro nDec0 vars2 un2 hD2 hL2 hs2 hvals2 hlen2
                    obtain ⟨hnd2, hmv_nmem2, hmv_lt2, hmv_un2, hids2, hiff2⟩ := hL2
                    have hin : (getV vars2 mv).in_cur_domain val = true :=
                      hvals2 val (List.mem_cons_self val more)
                    have hmv_none2 : (getV vars2 mv).assignedValue = none :=
                      (not_assigned_iff_none _).mp hmv_un2
                    rcases hres : prop (assignVar vars2 mv val) (some mv) with ⟨ok, ps⟩
                    have hgood : goodPrunings (assignVar vars2 mv val) ps := by
                      have := hC (assignVar vars2 mv val) (some mv)
                      rw [hres] at this
                      exact this
                    have hS1len : (assignVar vars2 mv val).length = vars2.length :=
                      length_assignVar ..
                    have hS2len : (applyPrunings ps (assignVar vars2 mv val)).length
                        = vars2.length := by
                      rw [length_applyPrunings, hS1len]
                    have hS1mv : getV (assignVar vars2 mv val) mv
                        = { getV vars2 mv with assignedValue := some val } :=
                      getV_assignVar_self vars2 mv val hmv_lt2 hmv_none2 hin
                    have hD2' : DomInv (applyPrunings ps (assignVar vars2 mv val)) :=
                      DomInv_applyPrunings ps _ (DomInv_assignVar vars2 mv val hD2)
                    have hs2' : ScopeBound cons
                        (applyPrunings ps (assignVar vars2 mv val)).length := by
                      rw [hS2len]
                      exact hs2
                    have hagree : ∀ i, i ≠ mv →
                        (getV (applyPrunings ps (assignVar vars2 mv val)) i).is_assigned
                          = (getV vars2 i).is_assigned := by
                      intro i him
                      apply is_assigned_congr
                      rw [getV_applyPrunings_assignedValue ps _ i,
                        getV_assignVar_ne vars2 mv i val (Ne.symm him)]
                    have hU2' : UnasgnInv (applyPrunings ps (assignVar vars2 mv val)) un2 := by
                      refine ⟨hnd2, ?_, ?_⟩
                      · intro i hi
                        rw [hS2len]
                        exact hids2 i hi
                      · intro i hi
                        rw [hS2len] at hi
                        have hass : (getV (applyPrunings ps (assignVar vars2 mv val)) i).assignedValue
                            = (getV (assignVar vars2 mv val) i).assignedValue :=
                          getV_applyPrunings_assignedValue ps _ i
                        by_cases him : i = mv
                        · have hval2 : (getV (applyPrunings ps (assignVar vars2 mv val)) i).assignedValue
                              = some val := by
                            rw [hass, him, hS1mv]
                          have htrue : (getV (applyPrunings ps (assignVar vars2 mv val)) i).is_assigned
                              = true := by
                            unfold VarState.is_assigned
                            rw [hval2]
                            rfl
                          rw [htrue, him]
                          simp [hmv_nmem2]
                        · rw [hagree i him, hiff2 i hi]
                          constructor
                          · rintro (hmem | rfl)
                            · exact hmem
                            · exact absurd rfl him
                          · exact Or.inl
                    cases ok with
                    | true =>
                        rcases ihf (nDec0 + 1) (applyPrunings ps (assignVar vars2 mv val)) un2
                            hD2' hU2' hs2' hlen2
                          with ⟨st4, n4, vars4, un4, heq4, hn4le, hlen4v, hcount4, hfalse4⟩
                        have hcnt : countNewlyAssigned vars2 vars4
                            ≤ 1 + countNewlyAssigned
                                (applyPrunings ps (assignVar vars2 mv val)) vars4 :=
                          countNewly_le_one_add vars2 _ vars4 mv hagree
                        cases st4 with
                        | true =>
                            refine ⟨true, n4, vars4, un4,
                              tryVals_MS_cons_ok_true prop _ mv val more nDec0 vars2 un2 ps
                                n4 vars4 un4 hres heq4, ?_, ?_, ?_, by simp⟩
                            · omega
                            · rw [hlen4v, hS2len]
                            · omega
                        | false =>
                            rcases hfalse4 rfl with ⟨hv4, hnd4, hlen4, hmem4⟩
                            have hrestore : unassignVar (restoreValues ps vars4) mv = vars2 := by
                              rw [hv4, restoreValues_applyPrunings ps _ hgood,
                                unassignVar_assignVar vars2 mv val hmv_none2]
                            have hL4 : LoopInv vars2 un4 mv := by
                              refine ⟨hnd4, ?_, hmv_lt2, hmv_un2, ?_, ?_⟩
                              · intro hmem
                                exact hmv_nmem2 ((hmem4 mv).mp hmem)
                              · intro i hi
                                exact hids2 i ((hmem4 i).mp hi)
                              · intro i hi
                                rw [hiff2 i hi]
                                constructor
                                · rintro (hmem | rfl)
                                  · exact Or.inl ((hmem4 i).mpr hmem)
                                  · exact Or.inr rfl
                                · rintro (hmem | rfl)
                                  · exact Or.inl ((hmem4 i).mp hmem)
                                  · exact Or.inr rfl
                            have hlen4' : un4.length < fuel := by
                              rw [hlen4]
                              exact hlen2
                            rcases ihv n4 vars2 un4 hD2 hL4 hs2
                                (fun w hw => hvals2 w (List.mem_cons_of_mem val hw)) hlen4'
                              with ⟨st5, n5, vars5, un5, heq5, hn5le, hlen5, hcount5, hfalse5⟩
                            refine ⟨st5, n5, vars5, un5, ?_, ?_, hlen5, ?_, ?_⟩
                            · rw [tryVals_MS_cons_ok_false prop _ mv val more nDec0 vars2 un2 ps
                                n4 vars4 un4 hres heq4, hrestore]
                              exact heq5
                            · omega
                            · omega
                            · intro hst
                              rcases hfalse5 hst with ⟨h1, h2, h3, h4⟩
                              refine ⟨h1, h2, ?_, ?_⟩
                              · rw [h3, hlen4]
                              · intro i
                                rw [h4 i]
                                constructor
                                · rintro (hmem | rfl)
                                  · exact Or.inl ((hmem4 i).mp hmem)
                                  · exact Or.inr rfl
                                · rintro (hmem | rfl)
                                  · exact Or.inl ((hmem4 i).mpr hmem)
                                  · exact Or.inr rfl
                    | false =>
                        have hrestore : unassignVar
                            (restoreValues ps (applyPrunings ps (assignVar vars2 mv val))) mv
                            = vars2 := by
                          rw [restoreValues_applyPrunings ps _ hgood,
                            unassignVar_assignVar vars2 mv val hmv_none2]
                        rcases ihv (nDec0 + 1) vars2 un2 hD2
                            ⟨hnd2, hmv_nmem2, hmv_lt2, hmv_un2, hids2, hiff2⟩ hs2
                            (fun w hw => hvals2 w (List.mem_cons_of_mem val hw)) hlen2
                          with ⟨st5, n5, vars5, un5, heq5, hn5le, hlen5, hcount5, hfalse5⟩
                        refine ⟨st5, n5, vars5, un5, ?_, ?_, hlen5, ?_, hfalse5⟩
                        · rw [tryVals_MS_cons_fail prop _ mv val more nDec0 vars2 un2 ps hres,
                            hrestore]
                          exact heq5
                        · omega
                        · omega
              rcases loop (getV vars mv).cur_domain nDec vars ((v :: rest).erase mv)
                  hD hL hs hvals hflen
                with ⟨st, nDec', vars', un', heq, hnle, hlenv, hcount, hfalse⟩
              refine ⟨st, nDec', vars', un', ?_, hnle, hlenv, hcount, ?_⟩
              · rw [bt_recurse_MS_succ_some prop cons fuel nDec vars v rest mv rl hext, hrl]
                exact heq
              · intro hst
                rcases hfalse hst with ⟨hv', hnd', hlen', hmem'⟩
                refine ⟨hv', hnd', ?_, ?_⟩
                · rw [hlen', herase_len]
                  rfl
                · intro i
                  rw [hmem' i]
                  constructor
                  · rintro (hmem | rfl)
                    · exact List.mem_of_mem_erase hmem
                    · exact hmv_mem
                  · intro hmem
                    by_cases him : i = mv
                    · exact Or.inr him
                    · exact Or.inl (hnd.mem_erase_iff.mpr ⟨him, hmem⟩)

/-! ### C3: the count returned by bt_search_MS -/

theorem countNewly_congr_pre (pre1 pre2 post : List VarState)
    (h : ∀ i, (getV pre1 i).is_assigned = (getV pre2 i).is_assigned) :
    countNewlyAssigned pre1 post = countNewlyAssigned pre2 post := by
  unfold countNewlyAssigned
  congr 1
  apply List.filter_congr
  intro a _
  rw [h a]

theorem countNewly_congr_post (pre post1 post2 : List VarState)
    (hlen : post1.length = post2.length)
    (h : ∀ i, (getV post1 i).is_assigned = (getV post2 i).is_assigned) :
    countNewlyAssigned pre post1 = countNewlyAssigned pre post2 := by
  unfold countNewlyAssigned
  rw [hlen]
  congr 1
  apply List.filter_congr
  intro a _
  rw [h a]

theorem bt_search_MS_root_fail (prop : Propagator) (cons : List Constraint)
    (vars : List VarState) (ps : List (Nat × Val))
    (hres : prop vars none = (false, ps)) :
    bt_search_MS prop cons vars
      = some (0, false, restoreValues ps (applyPrunings ps vars)) := by
  simp [bt_search_MS, hres]

theorem bt_search_MS_root_ok (prop : Propagator) (cons : List Constraint)
    (vars : List VarState) (ps : List (Nat × Val)) (st : Bool) (n2 : Nat)
    (v2 : List VarState) (u2 : List Nat)
    (hres : prop vars none = (true, ps))
    (hrec : bt_recurse_MS prop cons (vars.length + 1) 0 (applyPrunings ps vars)
        (initUnasgn vars) = some (st, n2, v2, u2)) :
    bt_search_MS prop cons vars = some (n2, st, restoreValues ps v2) := by
  simp [bt_search_MS, hres, hrec]

/-- C3 counterexample: with a single unassigned variable already narrowed to
current-domain size 1 and a propagator that accepts the root call but reports
a deadend after the (forced) trial assignment, `bt_search_MS` returns the
count 1, yet the invocation leaves zero variables assigned — refuting "the
returned count never exceeds the number of variables left assigned", and
showing the count tallies trial assignments undone by backtracking. -/
theorem c3_counterexample :
    bt_search_MS c3prop [] c3vars = some (1, false, c3vars) ∧
    countNewlyAssigned c3vars c3vars = 0 ∧ ¬ (1 ≤ 0) := by
  decide

/-- C3 (amended): for a contract-honouring propagator, `bt_search_MS` returns
the decision counter of the invocation — a count of trial assignments that is
at least the number of variables newly left assigned (it may strictly exceed
it, since assignments undone by backtracking are counted too) — and it
returns zero whenever the root propagation already fails. -/
theorem c3_bt_search_MS_count (prop : Propagator) (cons : List Constraint)
    (vars : List VarState) (n : Nat) (st : Bool) (vars' : List VarState)
    (hC : PropContract prop) (hD : DomInv vars)
    (hs : ScopeBound cons vars.length)
    (h : bt_search_MS prop cons vars = some (n, st, vars')) :
    countNewlyAssigned vars vars' ≤ n ∧
    ((prop vars none).1 = false → n = 0) := by
  rcases hres0 : prop vars none with ⟨ok0, ps0⟩
  have hgood0 : goodPrunings vars ps0 := by
    have := hC vars none
    rw [hres0] at this
    exact this
  cases ok0 with
  | false =>
      have heq := bt_search_MS_root_fail prop cons vars ps0 hres0
      rw [restoreValues_applyPrunings ps0 vars hgood0] at heq
      rw [heq] at h
      have hpair := Option.some.inj h
      have hn : (0 : Nat) = n := congrArg (fun q => q.1) hpair
      have hv : vars = vars' := congrArg (fun q => q.2.2) hpair
      constructor
      · rw [← hv, countNewly_self, ← hn]
      · intro _
        exact hn.symm
  | true =>
      have hU1 : UnasgnInv (applyPrunings ps0 vars) (initUnasgn vars) := by
        rcases UnasgnInv_initUnasgn vars with ⟨hnd0, hids0, hiff0⟩
        refine ⟨hnd0, ?_, ?_⟩
        · intro i hi
          rw [length_applyPrunings]
          exact hids0 i hi
        · intro i hi
          rw [length_applyPrunings] at hi
          rw [is_assigned_congr _ _ (getV_applyPrunings_assignedValue ps0 _ i)]
          exact hiff0 i hi
      have hs1 : ScopeBound cons (applyPrunings ps0 vars).length := by
        rw [length_applyPrunings]
        exact hs
      have hfuel : (initUnasgn vars).length < vars.length + 1 :=
        Nat.lt_succ_of_le (length_initUnasgn_le _)
      rcases bt_MS_master prop cons hC (vars.length + 1) 0 (applyPrunings ps0 vars)
          (initUnasgn vars) (DomInv_applyPrunings ps0 vars hD) hU1 hs1 hfuel
        with ⟨st2, n2, vars2, un2, heq, _, hlen2, hcount, _⟩
      have hsearch := bt_search_MS_root_ok prop cons vars ps0 st2 n2 vars2 un2 hres0 heq
      rw [hsearch] at h
      have hpair := Option.some.inj h
      have hn : n2 = n := congrArg (fun q => q.1) hpair
      have hv : restoreValues ps0 vars2 = vars' := congrArg (fun q => q.2.2) hpair
      constructor
      · have e1 : countNewlyAssigned vars vars'
            = countNewlyAssigned (applyPrunings ps0 vars) vars2 := by
          rw [countNewly_congr_pre vars (applyPrunings ps0 vars) vars'
              (fun i => (is_assigned_congr _ _
                (getV_applyPrunings_assignedValue ps0 vars i)).symm),
            countNewly_congr_post (applyPrunings ps0 vars) vars' vars2 ?hl ?ha]
          case hl =>
            rw [← hv, length_restoreValues]
          case ha =>
            intro i
            rw [← hv]
            exact is_assigned_congr _ _ (getV_restoreValues_assignedValue ps0 vars2 i)
        rw [e1, ← hn]
        omega
      · intro hfalse0
        simp [hres0] at hfalse0

/-- C3 witness: the amended statement at the counterexample instance — the
returned count 1 is at least the zero newly assigned variables, and the root
propagation there succeeds. -/
theorem c3_bt_search_MS_count_witness :
    countNewlyAssigned c3vars c3vars ≤ 1 ∧
    ((c3prop c3vars none).1 = false → 1 = 0) :=
  c3_bt_search_MS_count c3prop [] c3vars 1 false c3vars
    (fun vars ov => by
      cases ov <;> exact ⟨List.Pairwise.nil, fun p hp => absurd hp (List.not_mem_nil p)⟩)
    (by unfold DomInv; decide)
    (fun c hc => absurd hc (List.not_mem_nil c))
    (by decide)
